import Mathlib

/-!
# go-modules: cache facade, error signalling, request validation, auth gate

A shallow embedding of `utils/cache.go`, `utils/error.go`, `utils/request.go` and
`utils/auth_middleware.go`.  Go strings are Lean strings, Go `int` is `Int` (decimal
parsing checks the 64-bit range), a Go `error` is `Option GoError` (`none` is the nil
error), and a panic is the `Except.error` branch of a result.  Logging is left out.
-/

set_option autoImplicit false

namespace GoModules

/-! ## Errors and strings (`utils/error.go`) -/

/-- A non-nil Go `error` value: the sentinel `redis.Nil`, or any other error, known by
the text its `Error()` method returns.  A nil error is `none : Option GoError`. -/
inductive GoError where
  | redisNil
  | errorString (msg : String)
deriving DecidableEq, Repr

/-- The `Error()` method. -/
def GoError.Error : GoError → String
  | .redisNil => "redis: nil"
  | .errorString msg => msg

/-- The struct `AppError` (error.go 9-13). -/
structure AppError where
  Message : String
  StatusCode : Int
  ErrorCode : Int
deriving DecidableEq, Repr

/-- The struct `ValidationError` (error.go 19-23). -/
structure ValidationError where
  Message : String
  Field : String
  Tag : String
deriving DecidableEq, Repr

/-- What a panic carries: one of the two structured values of error.go, a runtime
error of the Go runtime (nil dereference, index out of range), or the plain text a
library panics with (the `reflect` package). -/
inductive Panic where
  | appError (e : AppError)
  | validationErrors (errors : List ValidationError) (statusCode : Int)
  | runtimeError (msg : String)
  | text (msg : String)
deriving DecidableEq, Repr

deriving instance DecidableEq for Except

/-- Embeds `strings.Contains` on character lists: some suffix of the text starts with `sub`. -/
def containsList (sub : List Char) : List Char → Bool
  | [] => sub.isPrefixOf []
  | c :: cs => sub.isPrefixOf (c :: cs) || containsList sub cs

/-- Embeds `strings.Contains(s, substr)`. -/
def Contains (s substr : String) : Bool :=
  containsList substr.data s.data

/-- Embeds `strings.Split` for a non-empty separator, on character lists, scanning left to
right.  `cur` holds the piece being read (reversed) and `skip` counts the characters
of a separator just found that are still to be passed over. -/
def splitGo (sep : List Char) : List Char → Nat → List Char → List (List Char)
  | [], _, cur => [cur.reverse]
  | _ :: cs, skip + 1, cur => splitGo sep cs skip cur
  | c :: cs, 0, cur =>
    if sep.isPrefixOf (c :: cs) then cur.reverse :: splitGo sep cs (sep.length - 1) []
    else splitGo sep cs 0 (c :: cur)

/-- Embeds `strings.Split(s, sep)`: the pieces of `s` between the non-overlapping occurrences
of `sep`, found left to right; with an empty separator, the characters of `s`. -/
def Split (s sep : String) : List String :=
  if sep.data = [] then s.data.map (fun c => String.mk [c])
  else (splitGo sep.data s.data 0 []).map String.mk

/-- The value of a decimal digit. -/
def digitVal (c : Char) : Option Nat :=
  if '0' ≤ c ∧ c ≤ '9' then some (c.toNat - '0'.toNat) else none

/-- How the digit loop of `strconv.ParseUint` ends: with the value read, at a character
that is not a digit, or at the digit with which the value leaves the 64-bit range. -/
inductive Digits where
  | value (n : Nat)
  | badDigit
  | overflow
deriving DecidableEq, Repr

/-- The digit loop of `strconv.ParseUint` in base 10 with 64 bits, left to right: the
first character that is not a digit, or the first digit that takes the value past
`2 ^ 64 - 1`, ends the loop. -/
def parseDigits : List Char → Nat → Digits
  | [], acc => .value acc
  | c :: cs, acc =>
    match digitVal c with
    | none => .badDigit
    | some d => if acc * 10 + d ≥ 2 ^ 64 then .overflow else parseDigits cs (acc * 10 + d)

/-- The two causes of a `strconv.NumError`. -/
inductive NumErr where
  | ErrSyntax
  | ErrRange
deriving DecidableEq, Repr

/-- The optional sign in front of a number: whether it is a minus, and the rest. -/
def splitSign : List Char → Bool × List Char
  | '-' :: t => (true, t)
  | '+' :: t => (false, t)
  | t => (false, t)

/-- Embeds `strconv.Atoi` on a 64-bit platform, without the text of its error: an optional
sign, then one or more decimal digits.  A character that is not a digit gives 0 and a
syntax error; a value outside the `int` range is clamped and reported as a range error,
also when the digits leave the 64-bit range before a later character is looked at. -/
def atoiCore (s : String) : Int × Option NumErr :=
  let signed := splitSign s.data
  match signed.2 with
  | [] => (0, some .ErrSyntax)
  | ds =>
    match parseDigits ds 0 with
    | .badDigit => (0, some .ErrSyntax)
    | .overflow =>
      if signed.1 then (-(2 ^ 63), some .ErrRange) else (2 ^ 63 - 1, some .ErrRange)
    | .value un =>
      if signed.1 then
        if un > 2 ^ 63 then (-(2 ^ 63), some .ErrRange) else (-(un : Int), none)
      else
        if un ≥ 2 ^ 63 then (2 ^ 63 - 1, some .ErrRange) else ((un : Int), none)

/-- Embeds `strconv.Atoi`, with the `*NumError` it returns; `quote` is `strconv.Quote`, which
the error text applies to the input. -/
def Atoi (quote : String → String) (s : String) : Int × Option GoError :=
  let r := atoiCore s
  (r.1, r.2.map (fun e =>
    .errorString ("strconv.Atoi: parsing " ++ quote s ++ ": " ++
      (match e with
       | .ErrSyntax => "invalid syntax"
       | .ErrRange => "value out of range"))))

/-- The verb `%d` of `fmt` on an `int`. -/
def formatInt (n : Int) : String :=
  if n < 0 then "-" ++ Nat.repr n.natAbs else Nat.repr n.natAbs

/-- Embeds `CustomError(message, statusCode)` (error.go 34-36). -/
def CustomError (message : String) (statusCode : Int) : GoError :=
  .errorString (message ++ "|" ++ message ++ "<->" ++ formatInt statusCode ++ "|")

/-- Embeds `CustomErrorWithTrace(err, message, statusCode)` (error.go 38-40).  It calls
`err.Error()`, which on a nil `err` is a nil dereference. -/
def CustomErrorWithTrace (err : Option GoError) (message : String) (statusCode : Int) :
    Except Panic GoError :=
  match err with
  | none => .error (.runtimeError "invalid memory address or nil pointer dereference")
  | some e => .ok (.errorString (e.Error ++ "|" ++ message ++ "<->" ++ formatInt statusCode ++ "|"))

/-- The `AppError` that `PanicIfError` builds from the text of a non-nil error
(error.go 44-55). -/
def decodeAppError (text : String) : AppError :=
  let customError := Split text "<->"
  let message := customError.headD ""
  let statusCode : Int :=
    if customError.length > 1 then
      (atoiCore ((Split (customError.getD 1 "") "|").headD "")).1
    else 500
  { Message := message, StatusCode := statusCode, ErrorCode := 0 }

/-- Embeds `PanicIfError(err)` (error.go 42-58): returns normally on a nil error and panics
with an `AppError` otherwise. -/
def PanicIfError (err : Option GoError) : Except Panic Unit :=
  match err with
  | none => .ok ()
  | some e => .error (.appError (decodeAppError e.Error))

/-- Embeds `PanicIfAppError(err, message, statusCode)` (error.go 60-65). -/
def PanicIfAppError (err : Option GoError) (message : String) (statusCode : Int) :
    Except Panic Unit :=
  match err with
  | none => .ok ()
  | some e =>
    match CustomErrorWithTrace (some e) message statusCode with
    | .error p => .error p
    | .ok customErr => PanicIfError (some customErr)

/-- Embeds `PanicAppError(message, statusCode)` (error.go 67-70). -/
def PanicAppError (message : String) (statusCode : Int) : Except Panic Unit :=
  PanicIfError (some (CustomError message statusCode))

/-- Embeds `PanicValidationError(errors, statusCode)` (error.go 72-78). -/
def PanicValidationError (errors : List ValidationError) (statusCode : Int) :
    Except Panic Unit :=
  .error (.validationErrors errors statusCode)

/-! ## Requests (`utils/request.go`, `utils/auth_middleware.go`) -/

/-- The parts of an `*http.Request` the helpers read: the header fields and the parsed
query parameters, each a list of name and value in order of appearance. -/
structure Request where
  Header : List (String × String)
  Query : List (String × String)
deriving DecidableEq, Repr

/-- Embeds `Get` of `http.Header` and of `url.Values`: the first value stored under the name,
or the empty string. -/
def getFirst (kv : List (String × String)) (name : String) : String :=
  match kv.find? (fun p => p.1 == name) with
  | some p => p.2
  | none => ""

/-- Embeds `generateValidationQueryErrorMsg` (request.go 20-22). -/
def generateValidationQueryErrorMsg (query : String) : String :=
  "invalid query param " ++ query

/-- Embeds `ValidateQueryParamInt(r, queryName, defaultValue...)` (request.go 47-62). -/
def ValidateQueryParamInt (quote : String → String) (r : Request) (queryName : String)
    (defaultValue : List Int) : Except Panic Int :=
  let query := getFirst r.Query queryName
  if query != "" then
    let parsed := Atoi quote query
    let queryInt := parsed.1
    let err := parsed.2
    if err != none || queryInt < 0 then
      match CustomErrorWithTrace err (generateValidationQueryErrorMsg queryName) 400 with
      | .error p => .error p
      | .ok customErr =>
        match PanicIfError (some customErr) with
        | .error p => .error p
        | .ok _ => .ok queryInt
    else .ok queryInt
  else
    match defaultValue with
    | d :: _ => .ok d
    | [] => .ok 0

/-! ## Cache keys (`utils/cache.go`, lines 201-246) -/

/-- The test `string(s[len(s)-1]) == "|"` of `BuildCacheKey`: the last byte of `s` is
the bar.  (`|` is ASCII, so the last byte is a bar exactly when the last character is.) -/
def lastIsBar (s : String) : Bool :=
  s.data.getLast? == some '|'

/-- A field of an argument struct as reflection sees it: its name, its package path
(empty exactly when the field is exported) and its string value. -/
structure StructField where
  Name : String
  PkgPath : String
  Value : String
deriving DecidableEq, Repr

/-- An exported field with the given name and value. -/
def exported (name value : String) : StructField :=
  { Name := name, PkgPath := "", Value := value }

/-- An argument struct as reflection sees it: its fields in declaration order. -/
abbrev ArgStruct := List StructField

/-- The if-chain of the inner loop of `BuildCacheKey` (cache.go 220-227) on a field whose
value `Interface()` has returned. -/
def appendFieldText (cacheArgs : String) (f : StructField) : String :=
  let isEmpty := f.Value == ""
  if !isEmpty && cacheArgs == "" then
    cacheArgs ++ (f.Name ++ "->" ++ f.Value)
  else if !isEmpty && lastIsBar cacheArgs then
    cacheArgs ++ (f.Name ++ "->" ++ f.Value)
  else if !isEmpty then
    cacheArgs ++ ("," ++ f.Name ++ "->" ++ f.Value)
  else
    cacheArgs

/-- One step of the inner loop of `BuildCacheKey` (cache.go 219-228) on field `f`: the
call `v.Field(i).Interface()` panics on an unexported field. -/
def appendField (cacheArgs : String) (f : StructField) : Except Panic String :=
  if f.PkgPath != "" then
    .error (.text
      "reflect.Value.Interface: cannot return value obtained from unexported field or method")
  else .ok (appendFieldText cacheArgs f)

/-- The inner loop of `BuildCacheKey` (cache.go 219-228) over the fields of an argument. -/
def appendFields : String → ArgStruct → Except Panic String
  | cacheArgs, [] => .ok cacheArgs
  | cacheArgs, f :: fs =>
    match appendField cacheArgs f with
    | .error p => .error p
    | .ok next => appendFields next fs

/-- One step of the outer loop of `BuildCacheKey` (cache.go 212-229) on argument `arg`. -/
def appendArg (cacheArgs : String) (arg : ArgStruct) : Except Panic String :=
  appendFields (if cacheArgs != "" then cacheArgs ++ "|" else cacheArgs) arg

/-- The outer loop of `BuildCacheKey` (cache.go 212-229) over the arguments. -/
def appendArgs : String → List ArgStruct → Except Panic String
  | cacheArgs, [] => .ok cacheArgs
  | cacheArgs, arg :: args =>
    match appendArg cacheArgs arg with
    | .error p => .error p
    | .ok next => appendArgs next args

/-- The first part of `BuildCacheKey` (cache.go 202-209): the key with the optional
identifier and function name. -/
def cacheKeyHead (key identifier funcName : String) : String :=
  if identifier != "" && funcName != "" then
    key ++ ":" ++ identifier ++ ":" ++ funcName
  else if identifier != "" && funcName == "" then
    key ++ ":" ++ identifier
  else if identifier == "" && funcName != "" then
    key ++ ":" ++ funcName
  else
    key

/-- Embeds `BuildCacheKey(key, identifier, funcName, args...)` (cache.go 201-232): the key,
or the panic of `reflect` on an unexported field of an argument. -/
def BuildCacheKey (key identifier funcName : String) (args : List ArgStruct) :
    Except Panic String :=
  let cacheKey := cacheKeyHead key identifier funcName
  match appendArgs "" args with
  | .error p => .error p
  | .ok cacheArgs => .ok (cacheKey ++ "|" ++ cacheArgs)

/-- Embeds `BuildPrefixKey(keys...)` (cache.go 234-246). -/
def BuildPrefixKey (keys : List String) : String :=
  keys.foldl
    (fun prefixKey key =>
      if prefixKey == "" then prefixKey ++ key else prefixKey ++ (":" ++ key))
    ""

/-- The head the specification describes: the base, then `:identifier` when the
identifier is non-empty, then `:funcName` when the function name is non-empty. -/
def specHead (base identifier funcName : String) : String :=
  base ++ (if identifier = "" then "" else ":" ++ identifier)
    ++ (if funcName = "" then "" else ":" ++ funcName)

/-- The rendering of one argument the specification describes: its non-empty fields
as `FieldName->value`, in declaration order, joined by commas. -/
def specRender (arg : ArgStruct) : String :=
  String.intercalate ","
    ((arg.filter (fun f => f.Value != "")).map (fun f => f.Name ++ "->" ++ f.Value))

/-- No field of the argument whose value ends in a bar is followed by a non-empty field:
the arguments on which the test of the last byte (cache.go 223) cannot mistake the end of
a value for the bar between two arguments. -/
def commaSafe : ArgStruct → Bool
  | [] => true
  | f :: fs => (!lastIsBar f.Value || fs.all (fun g => g.Value == "")) && commaSafe fs

/-! ## The auth gate (`utils/auth_middleware.go`) -/

/-- The header names the gate reads (auth_middleware.go 16-18). -/
def HeaderAuthorization : String := "Authorization"

/-- The forwarded header, read first. -/
def HeaderXFAuthorization : String := "X-Forwarded-Authorization"

/-- The struct `AuthPayload` (auth_middleware.go 23-25). -/
structure AuthPayload where
  UserID : String
deriving DecidableEq, Repr

/-- What one request through the handler that `CheckIsAuthenticated` returns did: the
tokens passed to the token decoder, the payloads attached to the contexts the
downstream handler was invoked with, and how the call ended. -/
structure AuthRun where
  decoded : List String
  handled : List AuthPayload
  result : Except Panic Unit
deriving DecidableEq, Repr

/-- The header the gate works on (auth_middleware.go 45-48): the forwarded header, or
the standard one when the forwarded header is empty. -/
def authHeader (r : Request) : String :=
  let header := getFirst r.Header HeaderXFAuthorization
  if header == "" then getFirst r.Header HeaderAuthorization else header

/-- The gate after its header test (auth_middleware.go 53-66): the token is the second
piece of the header split at the spaces; it is decoded, and on success the downstream
handler is invoked with the resolved identity. -/
def decodeAndHandle (DecodeToken : String → String × Option GoError)
    (handler : AuthPayload → Except Panic Unit) (header : String) : AuthRun :=
  match (Split header " ")[1]? with
  | none =>
    { decoded := [], handled := [], result := .error (.runtimeError "index out of range") }
  | some authToken =>
    let res := DecodeToken authToken
    let failed : Except Panic Unit :=
      if res.2 != none then PanicIfError (some (CustomError "unauthorized" 401)) else .ok ()
    match failed with
    | .error p => { decoded := [authToken], handled := [], result := .error p }
    | .ok _ =>
      { decoded := [authToken], handled := [{ UserID := res.1 }],
        result := handler { UserID := res.1 } }

/-- Embeds `(*AuthMiddlewareImpl).CheckIsAuthenticated(handler)` applied to a request
(auth_middleware.go 43-68).  `DecodeToken` is the method of the token client, giving
the user id of its result and its error; `handler` is the downstream handler, given the
payload of the context it is called with. -/
def CheckIsAuthenticated (DecodeToken : String → String × Option GoError)
    (handler : AuthPayload → Except Panic Unit) (r : Request) : AuthRun :=
  let header := authHeader r
  let guard : Except Panic Unit :=
    if header == "" || !Contains header "Bearer " then
      PanicIfError (some (CustomError "unauthorized" 401))
    else .ok ()
  match guard with
  | .error p => { decoded := [], handled := [], result := .error p }
  | .ok _ => decodeAndHandle DecodeToken handler header

/-! ## The backing store

`RedisClient` (cache.go 18-27) is an interface onto an external key-value server.  The
model below is an in-memory server with the contract of section 4.1 of the
specification: `Get`, `Set`, `Del` and a cursor-based `Scan` with glob-style matching.
Expiry over time is not modelled; the expiration is stored with the value. -/

/-- Go's `time.Duration`. -/
abbrev Duration := Int

/-- One cell of the server's key table.  `Del` empties a cell and leaves it in place, so
deleting keys never moves the cells a scan cursor has still to visit. -/
structure Slot where
  key : String
  val : Option (String × Duration)
deriving DecidableEq, Repr

/-- The server: its key table, the number of cells one `SCAN` call visits when the
client sends no `COUNT`, and the fault (connection down, server error) with which every
command fails, if any. -/
structure Redis where
  slots : List Slot
  defaultCount : Nat
  fault : Option GoError
deriving DecidableEq, Repr

/-- The live entries of the server, in table order: key, stored bytes, expiration. -/
def Redis.entries (r : Redis) : List (String × String × Duration) :=
  r.slots.filterMap (fun s => s.val.map (fun v => (s.key, v)))

/-- The value stored under `key`, if any. -/
def Redis.lookup (r : Redis) (key : String) : Option (String × Duration) :=
  (r.slots.find? (fun s => s.key == key && s.val.isSome)).bind (fun s => s.val)

/-- Embeds `Get(ctx, key).Result()`: the stored bytes, `redis.Nil` when the key is absent. -/
def Redis.Get (r : Redis) (key : String) : Except GoError String :=
  match r.fault with
  | some e => .error e
  | none =>
    match r.lookup key with
    | none => .error .redisNil
    | some v => .ok v.1

/-- Embeds `Set(ctx, key, value, expiration).Err()`. -/
def Redis.Set (r : Redis) (key value : String) (expiration : Duration) :
    Option GoError × Redis :=
  match r.fault with
  | some e => (some e, r)
  | none =>
    if r.slots.any (fun s => s.key == key) then
      (none, { r with slots := r.slots.map (fun s =>
        if s.key == key then { s with val := some (value, expiration) } else s) })
    else
      (none, { r with slots := r.slots ++ [{ key := key, val := some (value, expiration) }] })

/-- Embeds `Del(ctx, key)`: the error of the command and the server afterwards. -/
def Redis.Del (r : Redis) (key : String) : Option GoError × Redis :=
  match r.fault with
  | some e => (some e, r)
  | none =>
    (none, { r with slots := r.slots.map (fun s =>
      if s.key == key then { s with val := none } else s) })

/-- The body of a character class of a glob pattern (the loop after `[` and an optional
`^` in `stringmatchlen`): whether `c` is in the class, and the pattern after the `]`. -/
def globClass (c : Char) : List Char → Bool → Bool × List Char
  | '\\' :: x :: p, m => globClass c p (m || x == c)
  | ']' :: p, m => (m, p)
  | [], m => (m, [])
  | s :: '-' :: e :: p, m => globClass c p (m || (min s e ≤ c && c ≤ max s e))
  | x :: p, m => globClass c p (m || x == c)

/-- Whether `f` holds of some non-empty suffix of the text. -/
def anySuffix (f : List Char → Bool) : List Char → Bool
  | [] => false
  | c :: t => f (c :: t) || anySuffix f t

/-- What `stringmatchlen` does once a pattern element has consumed a character: at the
end of the text the remaining pattern may only be stars. -/
def globRest (loop : List Char → List Char → Bool) (p s : List Char) : Bool :=
  if s = [] then (p.dropWhile (fun c => c == '*')) = [] else loop p s

/-- Glob matching of the server (`stringmatchlen`, case sensitive), character by
character: `*` any run, `?` one character, `[...]` a class, backslash an escape. -/
def globLoop : Nat → List Char → List Char → Bool
  | 0, _, _ => false
  | _ + 1, [], s => s = []
  | _ + 1, _ :: _, [] => false
  | fuel + 1, '*' :: p, c :: s =>
    let rest := p.dropWhile (fun x => x == '*')
    if rest = [] then true else anySuffix (globLoop fuel rest) (c :: s)
  | fuel + 1, '?' :: p, _ :: s => globRest (globLoop fuel) p s
  | fuel + 1, '[' :: '^' :: p, c :: s =>
    let r := globClass c p false
    if r.1 then false else globRest (globLoop fuel) r.2 s
  | fuel + 1, '[' :: p, c :: s =>
    let r := globClass c p false
    if r.1 then globRest (globLoop fuel) r.2 s else false
  | fuel + 1, '\\' :: x :: p, c :: s =>
    if x == c then globRest (globLoop fuel) p s else false
  | fuel + 1, x :: p, c :: s =>
    if x == c then globRest (globLoop fuel) p s else false

/-- The `MATCH` filter of `SCAN`: the pattern `*` selects every key, any other pattern
is matched against the key. -/
def scanMatch (pattern key : String) : Bool :=
  pattern == "*" ||
    globLoop (pattern.data.length + key.data.length + 1) pattern.data key.data

/-- Embeds `Scan(ctx, cursor, match, count)`: one page of the iteration, the live keys among
the cells the call visits that pass the filter, and the cursor of the next page (0 when
the table is exhausted).  An empty `match` sends no filter and a `count` of 0 no count. -/
def Redis.Scan (r : Redis) (cursor : Nat) (pattern : String) (count : Nat) :
    Except GoError (List String × Nat) :=
  match r.fault with
  | some e => .error e
  | none =>
    let n := max 1 (if count > 0 then count else r.defaultCount)
    let window := (r.slots.drop cursor).take n
    let page := (window.filter (fun s =>
      s.val.isSome && (pattern == "" || scanMatch pattern s.key))).map (fun s => s.key)
    .ok (page, if cursor + n < r.slots.length then cursor + n else 0)

/-! ## The cache facade (`utils/cache.go`) -/

/-- What the facade sees of the values of one Go type `T` once they are passed as
`any`: the zero value, whether the interface is nil, whether the kind is a slice and the
length `reflect` reports, and the JSON encoder and decoder.  `Marshal` is the helper the
facade calls; `Unmarshal text out` is `json.Unmarshal` into a variable holding `out`,
giving the error and the variable afterwards. -/
structure GoType (T : Type) where
  zero : T
  isNil : T → Bool
  isSlice : T → Bool
  len : T → Nat
  Marshal : T → Except GoError String
  Unmarshal : String → T → Option GoError × T

/-- The part of `BaseConfig` the facade reads. -/
structure BaseConfig where
  CacheDuration : Duration
deriving DecidableEq, Repr

/-- The struct `CacheSvcImpl` (cache.go 39-42). -/
structure CacheSvcImpl where
  config : BaseConfig
  redis : Redis
deriving DecidableEq, Repr

/-- Embeds `(*CacheSvcImpl).Get(ctx, key, output)` (cache.go 86-102): the error and the output
variable afterwards.  The store is only read. -/
def CacheSvcImpl.Get {T : Type} (ty : GoType T) (s : CacheSvcImpl) (key : String)
    (output : T) : Option GoError × T :=
  match s.redis.Get key with
  | .error err => (some err, output)
  | .ok val => ty.Unmarshal val output

/-- Embeds `(*CacheSvcImpl).Set(ctx, key, data, duration...)` (cache.go 104-130): the error and
the facade afterwards. -/
def CacheSvcImpl.Set {T : Type} (ty : GoType T) (s : CacheSvcImpl) (key : String)
    (data : T) (duration : List Duration) : Option GoError × CacheSvcImpl :=
  if !ty.isNil data then
    if ty.isSlice data && ty.len data == 0 then (none, s)
    else
      match ty.Marshal data with
      | .error err => (some err, s)
      | .ok cacheData =>
        let expiration :=
          match duration with
          | d :: _ => d
          | [] => s.config.CacheDuration
        let res := s.redis.Set key cacheData expiration
        (res.1, { s with redis := res.2 })
  else (none, s)

/-- The loop body of `DelByPrefix` over the keys of one page (cache.go 148-152): each
key is deleted, the result of the delete is dropped, and the counter goes up. -/
def delPage (r : Redis) : List String → Redis × Nat
  | [] => (r, 0)
  | k :: ks =>
    let res := delPage (r.Del k).2 ks
    (res.1, res.2 + 1)

/-- The rest of the iteration of `DelByPrefix` once a page is used up: `Next` of the
scan iterator stops at cursor 0 or on an error and fetches the next page otherwise. -/
def scanLoop (pattern : String) : Nat → Redis → Nat → Nat → Redis × Nat
  | 0, r, _, found => (r, found)
  | fuel + 1, r, cursor, found =>
    if cursor = 0 then (r, found)
    else
      match r.Scan cursor pattern 0 with
      | .error _ => (r, found)
      | .ok (page, next) =>
        let res := delPage r page
        scanLoop pattern fuel res.1 next (found + res.2)

/-- Embeds `(*CacheSvcImpl).DelByPrefix(ctx, prefixName)` (cache.go 142-159): the facade
afterwards and the count of deleted records it logs.  Every page but the last moves the
cursor forward, so a number of fetches equal to the size of the table is enough. -/
def CacheSvcImpl.DelByPrefix (s : CacheSvcImpl) (prefixName : String) :
    CacheSvcImpl × Nat :=
  match s.redis.Scan 0 (prefixName ++ "*") 0 with
  | .error _ => (s, 0)
  | .ok (page, next) =>
    let res := delPage s.redis page
    let fin := scanLoop (prefixName ++ "*") s.redis.slots.length res.1 next res.2
    ({ s with redis := fin.1 }, fin.2)

/-- The two methods of the interface `CacheSvc` (cache.go 29-37) that `GetOrSetData`
calls, over a state `σ` of the implementation. -/
structure CacheSvc (σ T : Type) where
  Get : σ → String → T → (Option GoError × T) × σ
  Set : σ → String → T → List Duration → Option GoError × σ

/-- Embeds `CacheSvcImpl` as a `CacheSvc`. -/
def CacheSvcImpl.toCacheSvc {T : Type} (ty : GoType T) : CacheSvc CacheSvcImpl T where
  Get := fun s key output => (CacheSvcImpl.Get ty s key output, s)
  Set := fun s key data duration => CacheSvcImpl.Set ty s key data duration

/-- The test of `GetOrSetData` for a cache miss (cache.go 70). -/
def isNotFound (err : GoError) : Bool :=
  err == .redisNil || err.Error == "Entry not found"

/-- What a call of `GetOrSetData` did: the value and error it returned, the cache
afterwards, and how many times it invoked the compute function. -/
structure GetOrSetRun (σ T : Type) where
  data : T
  err : Option GoError
  cache : σ
  computeCalls : Nat

/-- Embeds `GetOrSetData(c, key, function, duration...)` (cache.go 65-84). -/
def GetOrSetData {σ T : Type} (c : CacheSvc σ T) (zero : T) (s : σ) (key : String)
    (function : Unit → T × Option GoError) (duration : List Duration) :
    GetOrSetRun σ T :=
  let got := c.Get s key zero
  match got.1.1 with
  | some err =>
    if isNotFound err then
      let res := function ()
      match res.2 with
      | some err2 => { data := res.1, err := some err2, cache := got.2, computeCalls := 1 }
      | none =>
        let put := c.Set got.2 key res.1 duration
        { data := res.1, err := put.1, cache := put.2, computeCalls := 1 }
    else { data := got.1.2, err := some err, cache := got.2, computeCalls := 0 }
  | none => { data := got.1.2, err := none, cache := got.2, computeCalls := 0 }

/-- A prefix without the characters that glob matching treats specially. -/
def isLiteral (p : String) : Bool :=
  p.data.all (fun c => c != '*' && c != '?' && c != '[' && c != '\\')

/-! ## Two Go types, for concrete runs -/

/-- The error of the decoders below; the text stands for whichever message
`json.Unmarshal` gives. -/
def decodeError : GoError := .errorString "json: cannot unmarshal"

/-- The JSON text of a `bool`. -/
def boolText (b : Bool) : String := if b then "true" else "false"

/-- The `bool` a JSON literal stands for. -/
def parseBool (s : String) : Option Bool :=
  if s == "true" then some true else if s == "false" then some false else none

/-- The Go type `[]bool`, a value being `none` for the nil slice and `some l` for a slice
with the elements `l`.  A slice in an `any` is never the nil interface.  The encoder
writes `null` for the nil slice and a compact array otherwise.  The decoder covers the
texts the encoder writes: `null` leaves the output as it is, a compact array of `true`
and `false` replaces it, and every other text is reported as an error. -/
def boolSlice : GoType (Option (List Bool)) where
  zero := none
  isNil := fun _ => false
  isSlice := fun _ => true
  len := fun v => (v.getD []).length
  Marshal := fun v =>
    match v with
    | none => .ok "null"
    | some l => .ok ("[" ++ String.intercalate "," (l.map boolText) ++ "]")
  Unmarshal := fun text out =>
    if text == "null" then (none, out)
    else
      match text.data with
      | '[' :: rest =>
        match rest.getLast? with
        | some ']' =>
          if rest.dropLast = [] then (none, some [])
          else
            match (Split (String.mk rest.dropLast) ",").mapM parseBool with
            | some l => (none, some l)
            | none => (some decodeError, out)
        | _ => (some decodeError, out)
      | _ => (some decodeError, out)

/-- A value of the Go type `struct { Ok bool; hidden bool }`. -/
structure Flags where
  Ok : Bool
  hidden : Bool
deriving DecidableEq, Repr

/-- The Go type `struct { Ok bool; hidden bool }`.  The encoder writes the exported field
only.  The decoder covers the texts the encoder writes: it sets `Ok` and leaves the
unexported field of the output as it is; `null` leaves the output as it is, and every
other text is reported as an error. -/
def flagsType : GoType Flags where
  zero := { Ok := false, hidden := false }
  isNil := fun _ => false
  isSlice := fun _ => false
  len := fun _ => 0
  Marshal := fun v => .ok ("\x7b\"Ok\":" ++ boolText v.Ok ++ "\x7d")
  Unmarshal := fun text out =>
    if text == "null" then (none, out)
    else if text == "\x7b\"Ok\":true\x7d" then (none, { out with Ok := true })
    else if text == "\x7b\"Ok\":false\x7d" then (none, { out with Ok := false })
    else (some decodeError, out)

/-- A facade over an empty, healthy server with a default expiration of 60. -/
def emptyCache : CacheSvcImpl :=
  { config := { CacheDuration := 60 },
    redis := { slots := [], defaultCount := 10, fault := none } }

/-! ## Auxiliary definitions for the proofs -/

/-- Joining with a separator onto an accumulator: `acc`, then every element behind the
separator. -/
def joinFrom (sep acc : String) : List String → String
  | [] => acc
  | a :: as => joinFrom sep (acc ++ sep ++ a) as

/-- The rendering of one field of an argument. -/
def fieldText (f : StructField) : String := f.Name ++ "->" ++ f.Value

/-- One step of the outer loop of `BuildCacheKey` on an argument whose fields are all
exported. -/
def appendArgText (cacheArgs : String) (arg : ArgStruct) : String :=
  arg.foldl appendFieldText (if cacheArgs != "" then cacheArgs ++ "|" else cacheArgs)

/-- The effect on one cell of deleting every key of `K`. -/
def tombAll (K : List String) (s : Slot) : Slot :=
  if K.contains s.key then { s with val := none } else s

/-- Embeds `strings.HasPrefix(s, prefix)`. -/
def HasPrefix (s pre : String) : Bool :=
  pre.data.isPrefixOf s.data

/-- A facade over a healthy server with three keys whose scan visits one cell a call. -/
def threeKeys : CacheSvcImpl :=
  { config := { CacheDuration := 60 },
    redis :=
      { slots := [{ key := "order:1", val := some ("1", 60) },
                  { key := "book:1", val := some ("2", 60) },
                  { key := "order:2", val := some ("3", 60) }],
        defaultCount := 1, fault := none } }

/-- A facade over a healthy server whose key `k` holds bytes that are not JSON. -/
def corruptCache : CacheSvcImpl :=
  { config := { CacheDuration := 60 },
    redis := { slots := [{ key := "k", val := some ("oops", 60) }], defaultCount := 10,
               fault := none } }

/-! ## Lemmas: strings and key building -/

theorem str_eq_empty_iff (s : String) : s = "" ↔ s.data = [] := by
  constructor
  · intro h; rw [h]
  · intro h; exact String.ext h

theorem append_ne_empty_left (s t : String) (h : s ≠ "") : s ++ t ≠ "" := by
  intro h2
  apply h
  rw [str_eq_empty_iff] at h2 ⊢
  rw [String.data_append] at h2
  exact (List.append_eq_nil.mp h2).1

theorem append_ne_empty_right (s t : String) (h : t ≠ "") : s ++ t ≠ "" := by
  intro h2
  apply h
  rw [str_eq_empty_iff] at h2 ⊢
  rw [String.data_append] at h2
  exact (List.append_eq_nil.mp h2).2

theorem intercalate_cons (sep a : String) (as : List String) :
    String.intercalate sep (a :: as) = joinFrom sep a as := by
  have h : ∀ (l : List String) (acc : String),
      String.intercalate.go acc sep l = joinFrom sep acc l := by
    intro l
    induction l with
    | nil => intro acc; rfl
    | cons b bs ih => intro acc; simp [String.intercalate.go, joinFrom, ih]
  simp [String.intercalate, h]

theorem joinFrom_append (sep pre acc : String) (l : List String) :
    joinFrom sep (pre ++ acc) l = pre ++ joinFrom sep acc l := by
  induction l generalizing acc with
  | nil => rfl
  | cons a as ih =>
    simp only [joinFrom]
    rw [← ih]
    simp only [String.append_assoc]

theorem lastIsBar_append (s t : String) (h : t ≠ "") : lastIsBar (s ++ t) = lastIsBar t := by
  unfold lastIsBar
  rw [String.data_append, List.getLast?_append]
  have ht : t.data ≠ [] := fun h2 => h ((str_eq_empty_iff t).mpr h2)
  cases hl : t.data.getLast? with
  | none => exact absurd (List.getLast?_eq_none_iff.mp hl) ht
  | some c => simp

theorem lastIsBar_bar (s : String) : lastIsBar (s ++ "|") = true := by
  rw [lastIsBar_append _ _ (by decide)]
  decide

theorem lastIsBar_empty : lastIsBar "" = false := by decide

theorem fold_all_empty (fs : ArgStruct) (acc : String)
    (h : fs.all (fun g => g.Value == "") = true) :
    fs.foldl appendFieldText acc = acc ∧ fs.filter (fun f => f.Value != "") = [] := by
  induction fs with
  | nil => exact ⟨rfl, rfl⟩
  | cons f fs ih =>
    simp only [List.all_cons, Bool.and_eq_true, beq_iff_eq] at h
    have h1 : appendFieldText acc f = acc := by simp [appendFieldText, h.1]
    have h2 : (f.Value != "") = false := by simp [h.1]
    have := ih h.2
    simp only [List.foldl_cons, h1, List.filter_cons, h2]
    exact ⟨this.1, by simpa using this.2⟩

theorem fold_middle (fs : ArgStruct) (acc : String) (hacc : acc ≠ "")
    (hbar : lastIsBar acc = false ∨ fs.all (fun g => g.Value == "") = true)
    (hs : commaSafe fs = true) :
    fs.foldl appendFieldText acc
      = joinFrom "," acc ((fs.filter (fun f => f.Value != "")).map fieldText) := by
  induction fs generalizing acc with
  | nil => rfl
  | cons f fs ih =>
    rcases hbar with hbar | hall
    · simp only [commaSafe, Bool.and_eq_true, Bool.or_eq_true, Bool.not_eq_true'] at hs
      by_cases he : f.Value = ""
      · have h1 : appendFieldText acc f = acc := by simp [appendFieldText, he]
        have h2 : (f.Value != "") = false := by simp [he]
        simp only [List.foldl_cons, h1, List.filter_cons, h2]
        exact ih acc hacc (Or.inl hbar) hs.2
      · have hb : (acc == "") = false := by simpa using hacc
        have hn : (f.Value == "") = false := by simpa using he
        have h1 : appendFieldText acc f = acc ++ "," ++ fieldText f := by
          simp [appendFieldText, hn, hb, hbar, fieldText, String.append_assoc]
        have h2 : (f.Value != "") = true := by simp [he]
        simp only [List.foldl_cons, h1, List.filter_cons, h2, if_true, List.map_cons, joinFrom]
        apply ih _ _ _ hs.2
        · exact append_ne_empty_left _ _ (append_ne_empty_left _ _ hacc)
        · have hl : lastIsBar (acc ++ "," ++ fieldText f) = lastIsBar f.Value := by
            unfold fieldText
            rw [← String.append_assoc, lastIsBar_append _ _ he]
          rw [hl]
          exact hs.1
    · obtain ⟨h1, h2⟩ := fold_all_empty (f :: fs) acc hall
      rw [h1, h2]
      rfl

theorem fold_fresh (fs : ArgStruct) (acc : String)
    (hacc : acc = "" ∨ lastIsBar acc = true) (hs : commaSafe fs = true) :
    fs.foldl appendFieldText acc = acc ++ specRender fs := by
  induction fs with
  | nil => simp [specRender, String.intercalate]
  | cons f fs ih =>
    simp only [commaSafe, Bool.and_eq_true, Bool.or_eq_true, Bool.not_eq_true'] at hs
    by_cases he : f.Value = ""
    · have h1 : appendFieldText acc f = acc := by simp [appendFieldText, he]
      have h2 : (f.Value != "") = false := by simp [he]
      have h3 : specRender (f :: fs) = specRender fs := by
        simp [specRender, List.filter_cons, h2]
      rw [List.foldl_cons, h1, h3]
      exact ih hs.2
    · have hn : (f.Value == "") = false := by simpa using he
      have h1 : appendFieldText acc f = acc ++ fieldText f := by
        rcases hacc with h | h
        · simp [appendFieldText, hn, h, fieldText]
        · simp [appendFieldText, hn, h, fieldText]
      have h2 : (f.Value != "") = true := by simp [he]
      have h3 : specRender (f :: fs)
          = joinFrom "," (fieldText f)
              ((fs.filter (fun f => f.Value != "")).map fieldText) := by
        simp only [specRender, List.filter_cons, h2, if_true, List.map_cons]
        rw [intercalate_cons]
        rfl
      have hft : fieldText f ≠ "" := append_ne_empty_right _ _ he
      have hl : lastIsBar (acc ++ fieldText f) = lastIsBar f.Value := by
        unfold fieldText
        rw [← String.append_assoc, ← String.append_assoc, lastIsBar_append _ _ he]
      rw [List.foldl_cons, h1, h3,
        fold_middle fs _ (append_ne_empty_right _ _ hft) (by rw [hl]; exact hs.1) hs.2,
        joinFrom_append]

theorem appendArgText_eq (acc : String) (arg : ArgStruct) (hs : commaSafe arg = true) :
    appendArgText acc arg
      = if acc = "" then specRender arg else acc ++ "|" ++ specRender arg := by
  unfold appendArgText
  by_cases h : acc = ""
  · subst h
    simp only [if_true]
    have := fold_fresh arg "" (Or.inl rfl) hs
    simpa using this
  · have hb : (acc != "") = true := by simpa using h
    simp only [hb, if_true, h, if_false]
    exact fold_fresh arg (acc ++ "|") (Or.inr (lastIsBar_bar acc)) hs

theorem args_fold_nonempty (args : List ArgStruct) (acc : String) (hacc : acc ≠ "")
    (hs : ∀ arg ∈ args, commaSafe arg = true) :
    args.foldl appendArgText acc = joinFrom "|" acc (args.map specRender) := by
  induction args generalizing acc with
  | nil => rfl
  | cons a as ih =>
    have hs2 : ∀ arg ∈ as, commaSafe arg = true :=
      fun g hg => hs g (List.mem_cons_of_mem _ hg)
    rw [List.foldl_cons, appendArgText_eq acc a (hs a (List.mem_cons_self _ _))]
    simp only [hacc, if_false, List.map_cons, joinFrom]
    exact ih _ (append_ne_empty_left _ _ (append_ne_empty_left _ _ hacc)) hs2

theorem args_fold (args : List ArgStruct) (hs : ∀ arg ∈ args, commaSafe arg = true) :
    args.foldl appendArgText ""
      = String.intercalate "|" ((args.map specRender).dropWhile (fun r => r == "")) := by
  induction args with
  | nil => rfl
  | cons a as ih =>
    have hs2 : ∀ arg ∈ as, commaSafe arg = true :=
      fun g hg => hs g (List.mem_cons_of_mem _ hg)
    rw [List.foldl_cons, appendArgText_eq "" a (hs a (List.mem_cons_self _ _))]
    simp only [if_true, List.map_cons, List.dropWhile_cons]
    by_cases h : specRender a = ""
    · rw [h]
      simpa using ih hs2
    · have hb : (specRender a == "") = false := by simpa using h
      simp only [hb, Bool.false_eq_true, if_false]
      rw [args_fold_nonempty as _ h hs2, intercalate_cons]

/-- On exported fields the inner loop is the fold of its if-chain. -/
theorem appendFields_exported (fs : ArgStruct) (acc : String)
    (hexp : ∀ f ∈ fs, f.PkgPath = "") :
    appendFields acc fs = .ok (fs.foldl appendFieldText acc) := by
  induction fs generalizing acc with
  | nil => rfl
  | cons f fs ih =>
    have hf : f.PkgPath = "" := hexp f (List.mem_cons_self _ _)
    simp only [appendFields, appendField, hf, bne_self_eq_false, Bool.false_eq_true, if_false,
      List.foldl_cons]
    exact ih _ (fun g hg => hexp g (List.mem_cons_of_mem _ hg))

/-- On exported fields the outer loop is the fold of its step. -/
theorem appendArgs_exported (args : List ArgStruct) (acc : String)
    (hexp : ∀ arg ∈ args, ∀ f ∈ arg, f.PkgPath = "") :
    appendArgs acc args = .ok (args.foldl appendArgText acc) := by
  induction args generalizing acc with
  | nil => rfl
  | cons a as ih =>
    simp only [appendArgs, appendArg,
      appendFields_exported a _ (hexp a (List.mem_cons_self _ _)), List.foldl_cons]
    exact ih _ (fun g hg => hexp g (List.mem_cons_of_mem _ hg))

theorem head_eq (key identifier funcName : String) :
    cacheKeyHead key identifier funcName = specHead key identifier funcName := by
  unfold cacheKeyHead specHead
  by_cases h1 : identifier = "" <;> by_cases h2 : funcName = "" <;>
    simp [h1, h2, String.append_assoc]

theorem prefix_fold_nonempty (sep : String) (l : List String) (acc : String) (h : acc ≠ "") :
    l.foldl (fun p k => if p == "" then p ++ k else p ++ (sep ++ k)) acc
      = joinFrom sep acc l := by
  induction l generalizing acc with
  | nil => rfl
  | cons a as ih =>
    simp only [List.foldl_cons, joinFrom]
    have : (acc == "") = false := by simpa using h
    rw [this]
    simp only [Bool.false_eq_true, if_false]
    rw [ih _ (append_ne_empty_left _ _ h), String.append_assoc]

theorem BuildPrefixKey_dropWhile (keys : List String) :
    BuildPrefixKey keys = String.intercalate ":" (keys.dropWhile (fun k => k == "")) := by
  unfold BuildPrefixKey
  induction keys with
  | nil => rfl
  | cons a as ih =>
    by_cases ha : a = ""
    · subst ha
      simp only [List.foldl_cons, List.dropWhile_cons]
      simpa using ih
    · have hb : (a == "") = false := by simpa using ha
      simp only [List.foldl_cons, List.dropWhile_cons, hb]
      simp only [beq_self_eq_true, if_true, String.empty_append, Bool.false_eq_true, if_false]
      rw [prefix_fold_nonempty ":" as a ha, intercalate_cons]

/-! ## Lemmas: `strings.Split` and `strings.Contains` -/

theorem isPrefixOf_append_of_length_le (sep u v : List Char) (h : sep.length ≤ u.length) :
    sep.isPrefixOf (u ++ v) = sep.isPrefixOf u := by
  induction sep generalizing u with
  | nil => simp [List.isPrefixOf]
  | cons s ss ih =>
    cases u with
    | nil => simp at h
    | cons x xs =>
      simp only [List.cons_append, List.isPrefixOf, List.append_eq]
      rw [ih xs (by simpa using h)]

theorem splitGo_skip (sep pre rest cur : List Char) :
    splitGo sep (pre ++ rest) pre.length cur = splitGo sep rest 0 cur := by
  induction pre with
  | nil => rfl
  | cons p ps ih => simpa [splitGo] using ih

theorem splitGo_first (sep a b : List Char) (hsep : sep ≠ [])
    (h : containsList sep (a ++ sep.dropLast) = false) (cur : List Char) :
    splitGo sep (a ++ (sep ++ b)) 0 cur = (cur.reverse ++ a) :: splitGo sep b 0 [] := by
  induction a generalizing cur with
  | nil =>
    cases sep with
    | nil => exact absurd rfl hsep
    | cons s ss =>
      have hp : (s :: ss).isPrefixOf (s :: (ss ++ b)) = true := by
        rw [List.isPrefixOf_iff_prefix]
        exact ⟨b, rfl⟩
      simp only [List.nil_append, List.cons_append, splitGo, hp, if_true, List.append_nil,
        List.length_cons, Nat.add_sub_cancel, List.append_eq]
      rw [splitGo_skip]
  | cons x xs ih =>
    have hcons : containsList sep (x :: (xs ++ sep.dropLast)) = false := h
    simp only [containsList, Bool.or_eq_false_iff] at hcons
    have hlen : sep.length ≤ (x :: (xs ++ sep.dropLast)).length := by
      simp only [List.length_cons, List.length_append, List.length_dropLast]
      omega
    have hsplit : x :: (xs ++ (sep ++ b))
        = (x :: (xs ++ sep.dropLast)) ++ (sep.getLast hsep :: b) := by
      have := List.dropLast_append_getLast hsep
      conv_lhs => rw [← this]
      simp
    have hp : sep.isPrefixOf (x :: (xs ++ (sep ++ b))) = false := by
      rw [hsplit, isPrefixOf_append_of_length_le _ _ _ hlen]
      exact hcons.1
    simp only [List.cons_append, splitGo, List.append_eq, hp, Bool.false_eq_true, if_false]
    rw [ih hcons.2]
    simp

theorem splitGo_none (sep a : List Char) (h : containsList sep a = false) (cur : List Char) :
    splitGo sep a 0 cur = [cur.reverse ++ a] := by
  induction a generalizing cur with
  | nil => simp [splitGo]
  | cons x xs ih =>
    simp only [containsList, Bool.or_eq_false_iff] at h
    simp only [splitGo, h.1, Bool.false_eq_true, if_false]
    rw [ih h.2]
    simp

/-- A text without the first character of `sub` does not contain `sub`. -/
theorem containsList_of_not_mem (s : Char) (ss l : List Char) (h : s ∉ l) :
    containsList (s :: ss) l = false := by
  induction l with
  | nil => simp [containsList, List.isPrefixOf]
  | cons x xs ih =>
    have hx : s ≠ x := fun e => h (e ▸ List.mem_cons_self _ _)
    have hxs : s ∉ xs := fun e => h (List.mem_cons_of_mem _ e)
    simp [containsList, List.isPrefixOf, hx, ih hxs]

/-- Appending a text that starts with neither `-` nor `>` to a text without `<->`
creates no new occurrence of `<->` across the seam. -/
theorem containsList_arrow_append (m y : List Char)
    (hm : containsList ['<', '-', '>'] m = false)
    (hy : y.head? ≠ some '-' ∧ y.head? ≠ some '>') :
    containsList ['<', '-', '>'] (m ++ y) = containsList ['<', '-', '>'] y := by
  induction m with
  | nil => rfl
  | cons c cs ih =>
    simp only [containsList, Bool.or_eq_false_iff] at hm
    have hp : List.isPrefixOf ['<', '-', '>'] (c :: (cs ++ y)) = false := by
      match cs, hm.1 with
      | [], _ =>
        cases y with
        | nil => simp [List.isPrefixOf]
        | cons y0 ys =>
          have : '-' ≠ y0 := fun e => hy.1 (by simp [← e])
          simp [List.isPrefixOf, this]
      | [d], _ =>
        cases y with
        | nil => simp [List.isPrefixOf]
        | cons y0 ys =>
          have : '>' ≠ y0 := fun e => hy.2 (by simp [← e])
          simp [List.isPrefixOf, this]
      | d :: e :: rest, h1 =>
        simpa [List.isPrefixOf] using h1
    simp only [List.cons_append, containsList, List.append_eq, hp, Bool.false_or]
    exact ih hm.2

/-! ## Lemmas: decimal formatting and parsing -/

theorem digitVal_digitChar (d : Nat) (h : d < 10) : digitVal (Nat.digitChar d) = some d := by
  interval_cases d <;> decide

theorem toDigitsCore_ne_nil (fuel n : Nat) (acc : List Char) (h : acc ≠ []) :
    Nat.toDigitsCore 10 fuel n acc ≠ [] := by
  induction fuel generalizing n acc with
  | zero => simpa [Nat.toDigitsCore] using h
  | succ f ih =>
    simp only [Nat.toDigitsCore]
    split
    · simp
    · exact ih _ _ (by simp)

theorem toDigitsCore_all (P : Char → Prop) (hP : ∀ d, d < 10 → P (Nat.digitChar d))
    (fuel n : Nat) (acc : List Char) (h : ∀ c ∈ acc, P c) :
    ∀ c ∈ Nat.toDigitsCore 10 fuel n acc, P c := by
  induction fuel generalizing n acc with
  | zero => simpa [Nat.toDigitsCore] using h
  | succ f ih =>
    have hd : P (Nat.digitChar (n % 10)) := hP _ (Nat.mod_lt _ (by decide))
    have hacc : ∀ c ∈ Nat.digitChar (n % 10) :: acc, P c := by
      intro c hc
      rcases List.mem_cons.mp hc with e | e
      · exact e ▸ hd
      · exact h c e
    simp only [Nat.toDigitsCore]
    split
    · exact hacc
    · exact ih _ _ hacc

theorem parseDigits_toDigitsCore (fuel n : Nat) (acc : List Char) (h : n < fuel) :
    ∃ k, ∀ a0, a0 * 10 ^ k + n < 2 ^ 64 →
      parseDigits (Nat.toDigitsCore 10 fuel n acc) a0 = parseDigits acc (a0 * 10 ^ k + n) := by
  induction fuel generalizing n acc with
  | zero => omega
  | succ f ih =>
    simp only [Nat.toDigitsCore]
    split
    · rename_i h0
      refine ⟨1, fun a0 hb => ?_⟩
      have hn : n % 10 = n := by omega
      simp only [pow_one] at hb
      have hlt : ¬ (a0 * 10 + n ≥ 2 ^ 64) := by omega
      simp only [parseDigits]
      rw [digitVal_digitChar _ (Nat.mod_lt _ (by decide))]
      simp only [hn, pow_one, hlt, if_false]
    · rename_i h0
      have hlt : n / 10 < f := by omega
      obtain ⟨k, hk⟩ := ih (n / 10) (Nat.digitChar (n % 10) :: acc) hlt
      refine ⟨k + 1, fun a0 hb => ?_⟩
      have hdm := Nat.div_add_mod n 10
      have heq : (a0 * 10 ^ k + n / 10) * 10 + n % 10 = a0 * 10 ^ (k + 1) + n := by
        rw [pow_succ]
        nlinarith
      have hb1 : a0 * 10 ^ k + n / 10 < 2 ^ 64 := by omega
      have hb2 : ¬ ((a0 * 10 ^ k + n / 10) * 10 + n % 10 ≥ 2 ^ 64) := by omega
      rw [hk a0 hb1]
      simp only [parseDigits]
      rw [digitVal_digitChar _ (Nat.mod_lt _ (by decide))]
      simp only [heq]
      rw [heq] at hb2
      simp only [hb2, if_false]

theorem parseDigits_repr (n : Nat) (hn : n < 2 ^ 64) :
    parseDigits (Nat.repr n).data 0 = .value n := by
  obtain ⟨k, hk⟩ := parseDigits_toDigitsCore (n + 1) n [] (Nat.lt_succ_self n)
  have := hk 0 (by simpa using hn)
  simpa [Nat.repr, Nat.toDigits, List.asString, parseDigits] using this

/-- The decimal text of a natural number is a non-empty list of digits. -/
theorem repr_shape (n : Nat) :
    ∃ c t, (Nat.repr n).data = c :: t ∧ ∀ x ∈ c :: t, '0' ≤ x ∧ x ≤ '9' := by
  have hall := toDigitsCore_all (fun x => '0' ≤ x ∧ x ≤ '9')
    (by intro d hd; interval_cases d <;> decide) (n + 1) n [] (by simp)
  have hne : Nat.toDigitsCore 10 (n + 1) n [] ≠ [] := by
    simp only [Nat.toDigitsCore]
    split
    · simp
    · exact toDigitsCore_ne_nil _ _ _ (by simp)
  have hdata : (Nat.repr n).data = Nat.toDigitsCore 10 (n + 1) n [] := by
    simp [Nat.repr, Nat.toDigits, List.asString]
  rw [hdata]
  cases hl : Nat.toDigitsCore 10 (n + 1) n [] with
  | nil => exact absurd hl hne
  | cons c t => exact ⟨c, t, rfl, hl ▸ hall⟩

theorem splitSign_digit (c : Char) (t : List Char) (h : '0' ≤ c ∧ c ≤ '9') :
    splitSign (c :: t) = (false, c :: t) := by
  have hm : c ≠ '-' := by
    intro e; rw [e] at h; exact absurd h.1 (by decide)
  have hpl : c ≠ '+' := by
    intro e; rw [e] at h; exact absurd h.1 (by decide)
  unfold splitSign
  split
  · rename_i heq; simp only [List.cons.injEq] at heq; exact absurd heq.1 hm
  · rename_i heq; simp only [List.cons.injEq] at heq; exact absurd heq.1 hpl
  · rfl

theorem atoiCore_formatInt (n : Int) (hlo : -(2 ^ 63) ≤ n) (hhi : n < 2 ^ 63) :
    atoiCore (formatInt n) = (n, none) := by
  obtain ⟨c, t, hct, hdig⟩ := repr_shape n.natAbs
  have hp := parseDigits_repr n.natAbs (by omega)
  rw [hct] at hp
  unfold formatInt
  by_cases hneg : n < 0
  · have hdata : ("-" ++ Nat.repr n.natAbs).data = '-' :: c :: t := by
      rw [String.data_append, hct]; rfl
    have h1 : ¬ (n.natAbs > 2 ^ 63) := by omega
    simp only [hneg, if_true, atoiCore, hdata, splitSign, hp, h1, if_false]
    congr 1
    omega
  · have h1 : ¬ (n.natAbs ≥ 2 ^ 63) := by omega
    simp only [hneg, if_false, atoiCore, hct,
      splitSign_digit c t (hdig c (List.mem_cons_self _ _)), hp, h1, Bool.false_eq_true]
    congr 1
    omega

/-! ## The status code carried through the error text -/

/-- A text with exactly one separator, at a known place, splits in two. -/
theorem Split_two (a b sep : String) (hsep : sep.data ≠ [])
    (ha : containsList sep.data (a.data ++ sep.data.dropLast) = false)
    (hb : containsList sep.data b.data = false) :
    Split (a ++ sep ++ b) sep = [a, b] := by
  unfold Split
  simp only [hsep, if_false, String.data_append, List.append_assoc]
  rw [splitGo_first _ _ _ hsep ha, splitGo_none _ _ hb]
  simp

theorem formatInt_chars (n : Int) :
    ∀ x ∈ (formatInt n).data, x = '-' ∨ ('0' ≤ x ∧ x ≤ '9') := by
  obtain ⟨c, t, hct, hdig⟩ := repr_shape n.natAbs
  intro x hx
  unfold formatInt at hx
  split at hx
  · rw [String.data_append, hct] at hx
    rcases List.mem_append.mp hx with h | h
    · left
      simpa using h
    · right
      exact hdig x h
  · rw [hct] at hx
    right
    exact hdig x hx

theorem formatInt_not_mem (c : Char) (h1 : c ≠ '-') (h2 : ¬ ('0' ≤ c ∧ c ≤ '9')) (n : Int) :
    c ∉ (formatInt n).data := by
  intro hc
  rcases formatInt_chars n c hc with h | h
  · exact h1 h
  · exact h2 h

/-- The text `a<->N|`, with no `<->` inside `a`, decodes to message `a` and status `N`. -/
theorem decodeAppError_eq (a : String) (n : Int)
    (ha : Contains a "<->" = false) (hlo : -(2 ^ 63) ≤ n) (hhi : n < 2 ^ 63) :
    decodeAppError (a ++ "<->" ++ formatInt n ++ "|")
      = { Message := a, StatusCode := n, ErrorCode := 0 } := by
  have hlt : '<' ∉ (formatInt n).data :=
    formatInt_not_mem '<' (by decide) (by decide) n
  have hbar : '|' ∉ (formatInt n).data :=
    formatInt_not_mem '|' (by decide) (by decide) n
  have h1 : Split (a ++ "<->" ++ formatInt n ++ "|") "<->" = [a, formatInt n ++ "|"] := by
    rw [String.append_assoc (a ++ "<->")]
    apply Split_two
    · decide
    · have := containsList_arrow_append a.data ['<', '-'] ha (by decide)
      rw [show ("<->" : String).data.dropLast = ['<', '-'] from rfl]
      rw [show ("<->" : String).data = ['<', '-', '>'] from rfl, this]
      decide
    · apply containsList_of_not_mem
      rw [String.data_append]
      intro hm
      rcases List.mem_append.mp hm with h | h
      · exact hlt h
      · exact absurd h (by decide)
  have h2 : Split (formatInt n ++ "|") "|" = [formatInt n, ""] := by
    have := Split_two (formatInt n) "" "|" (by decide)
      (by
        apply containsList_of_not_mem
        simpa using hbar)
      (by decide)
    simpa using this
  unfold decodeAppError
  simp only [h1, List.headD_cons, List.length_cons, List.length_nil, List.getD_cons_succ,
    List.getD_cons_zero, h2, atoiCore_formatInt n hlo hhi]
  simp

/-- Joining two texts without `<->` by a bar gives a text without `<->`. -/
theorem Contains_bar (m1 m2 : String) (h1 : Contains m1 "<->" = false)
    (h2 : Contains m2 "<->" = false) : Contains (m1 ++ "|" ++ m2) "<->" = false := by
  unfold Contains at *
  simp only [String.data_append, List.append_assoc]
  rw [show ("<->" : String).data = ['<', '-', '>'] from rfl] at *
  have hb : ("|" : String).data ++ m2.data = '|' :: m2.data := rfl
  rw [hb, containsList_arrow_append m1.data _ h1 (by simp)]
  simp [containsList, List.isPrefixOf, h2]

theorem CustomError_panic (message : String) (statusCode : Int)
    (hm : Contains message "<->" = false)
    (hlo : -(2 ^ 63) ≤ statusCode) (hhi : statusCode < 2 ^ 63) :
    PanicIfError (some (CustomError message statusCode))
      = .error (.appError
          { Message := message ++ "|" ++ message, StatusCode := statusCode, ErrorCode := 0 }) := by
  simp only [PanicIfError, CustomError, GoError.Error]
  rw [decodeAppError_eq _ _ (Contains_bar _ _ hm hm) hlo hhi]

theorem PanicIfAppError_panic (err : GoError) (message : String) (statusCode : Int)
    (he : Contains err.Error "<->" = false) (hm : Contains message "<->" = false)
    (hlo : -(2 ^ 63) ≤ statusCode) (hhi : statusCode < 2 ^ 63) :
    PanicIfAppError (some err) message statusCode
      = .error (.appError
          { Message := err.Error ++ "|" ++ message, StatusCode := statusCode, ErrorCode := 0 }) := by
  simp only [PanicIfAppError, CustomErrorWithTrace, PanicIfError]
  have ht : (GoError.errorString
      (err.Error ++ "|" ++ message ++ "<->" ++ formatInt statusCode ++ "|")).Error
      = err.Error ++ "|" ++ message ++ "<->" ++ formatInt statusCode ++ "|" := rfl
  rw [ht, decodeAppError_eq _ _ (Contains_bar _ _ he hm) hlo hhi]

/-! ## Lemmas: the store -/

theorem find_after_set (slots : List Slot) (key : String) (v : String × Duration)
    (h : slots.any (fun s => s.key == key) = true) :
    ((slots.map (fun s => if s.key == key then { s with val := some v } else s)).find?
      (fun s => s.key == key && s.val.isSome)).bind (fun s => s.val) = some v := by
  induction slots with
  | nil => simp at h
  | cons a as ih =>
    by_cases ha : a.key = key
    · simp [List.find?, ha]
    · have hb : (a.key == key) = false := by simpa using ha
      have h2 : as.any (fun s => s.key == key) = true := by
        simpa [List.any_cons, hb] using h
      simp only [List.map_cons, hb, Bool.false_eq_true, if_false, List.find?, Bool.false_and]
      exact ih h2

theorem find_after_append (slots : List Slot) (key : String) (v : String × Duration)
    (h : slots.any (fun s => s.key == key) = false) :
    ((slots ++ [({ key := key, val := some v } : Slot)]).find?
      (fun s => s.key == key && s.val.isSome)).bind (fun s => s.val) = some v := by
  induction slots with
  | nil => simp [List.find?]
  | cons a as ih =>
    simp only [List.any_cons, Bool.or_eq_false_iff] at h
    simp only [List.cons_append, List.find?, h.1, Bool.false_and]
    exact ih h.2

theorem Redis.Set_ok (r : Redis) (key value : String) (expiration : Duration)
    (h : r.fault = none) : (r.Set key value expiration).1 = none := by
  simp only [Redis.Set, h]
  split <;> rfl

theorem Redis.Set_fault (r : Redis) (key value : String) (expiration : Duration) :
    (r.Set key value expiration).2.fault = r.fault := by
  unfold Redis.Set
  split
  · rfl
  · split <;> rfl

theorem Redis.Get_Set (r : Redis) (key value : String) (expiration : Duration)
    (h : r.fault = none) : (r.Set key value expiration).2.Get key = .ok value := by
  have hf := Redis.Set_fault r key value expiration
  unfold Redis.Get
  rw [hf, h]
  have hl : (r.Set key value expiration).2.lookup key = some (value, expiration) := by
    simp only [Redis.Set, Redis.lookup, h]
    by_cases ha : r.slots.any (fun s => s.key == key) = true
    · simp only [ha, if_true]
      exact find_after_set r.slots key (value, expiration) ha
    · have ha2 : r.slots.any (fun s => s.key == key) = false := by simpa using ha
      simp only [ha2, Bool.false_eq_true, if_false]
      exact find_after_append r.slots key (value, expiration) ha2
  rw [hl]

/-! ## The facade: `Set`, `Get`, `GetOrSetData` -/

theorem Set_writes {T : Type} (ty : GoType T) (s : CacheSvcImpl) (k : String) (v : T)
    (duration : List Duration) (bytes : String)
    (hstore : s.redis.fault = none) (hnil : ty.isNil v = false)
    (hslice : ¬ (ty.isSlice v = true ∧ ty.len v = 0))
    (henc : ty.Marshal v = .ok bytes) :
    (CacheSvcImpl.Set ty s k v duration).1 = none ∧
      (CacheSvcImpl.Set ty s k v duration).2.redis.Get k = .ok bytes := by
  have hs : (ty.isSlice v && ty.len v == 0) = false := by
    cases h1 : ty.isSlice v
    · rfl
    · have : ty.len v ≠ 0 := fun h2 => hslice ⟨h1, h2⟩
      simpa using this
  unfold CacheSvcImpl.Set
  simp only [hnil, Bool.not_false, if_true, hs, Bool.false_eq_true, if_false, henc]
  exact ⟨Redis.Set_ok _ _ _ _ hstore, Redis.Get_Set _ _ _ _ hstore⟩

theorem Set_noop {T : Type} (ty : GoType T) (s : CacheSvcImpl) (k : String) (data : T)
    (duration : List Duration)
    (h : ty.isNil data = true ∨ (ty.isSlice data = true ∧ ty.len data = 0)) :
    CacheSvcImpl.Set ty s k data duration = (none, s) := by
  unfold CacheSvcImpl.Set
  rcases h with h | ⟨h1, h2⟩
  · simp [h]
  · cases hn : ty.isNil data <;> simp [h1, h2]

theorem Set_then_Get_aux {T : Type} (ty : GoType T) (s : CacheSvcImpl) (k : String)
    (v out : T) (duration : List Duration) (bytes : String)
    (hstore : s.redis.fault = none) (hnil : ty.isNil v = false)
    (hslice : ¬ (ty.isSlice v = true ∧ ty.len v = 0))
    (henc : ty.Marshal v = .ok bytes) (hdec : ty.Unmarshal bytes out = (none, v)) :
    CacheSvcImpl.Get ty (CacheSvcImpl.Set ty s k v duration).2 k out = (none, v) := by
  obtain ⟨_, h2⟩ := Set_writes ty s k v duration bytes hstore hnil hslice henc
  unfold CacheSvcImpl.Get
  rw [h2]
  exact hdec

/-! ## Lemmas: glob matching of a literal prefix followed by a star -/

theorem globRest_star (fuel : Nat) (s : List Char) :
    globRest (globLoop (fuel + 1)) ['*'] s = true := by
  unfold globRest
  cases s with
  | nil => simp
  | cons c t => simp [globLoop]

theorem globLoop_literal_cons (fuel : Nat) (x c : Char) (p s : List Char)
    (h1 : x ≠ '*') (h2 : x ≠ '?') (h3 : x ≠ '[') (h4 : x ≠ '\\') :
    globLoop (fuel + 1) (x :: p) (c :: s)
      = if x == c then globRest (globLoop fuel) p s else false := by
  unfold globLoop
  split <;> simp_all

theorem globLoop_literal_star (p : List Char)
    (hlit : p.all (fun c => c != '*' && c != '?' && c != '[' && c != '\\') = true)
    (hne : p ≠ []) (fuel : Nat) (k : List Char) (hfuel : p.length + 1 ≤ fuel) :
    globLoop fuel (p ++ ['*']) k = p.isPrefixOf k := by
  induction p generalizing fuel k with
  | nil => exact absurd rfl hne
  | cons x p ih =>
    simp only [List.all_cons, Bool.and_eq_true, bne_iff_ne, ne_eq] at hlit
    obtain ⟨⟨⟨⟨h1, h2⟩, h3⟩, h4⟩, hp⟩ := hlit
    cases fuel with
    | zero => simp at hfuel
    | succ f =>
      cases k with
      | nil => simp [globLoop, List.isPrefixOf]
      | cons c s =>
        rw [List.cons_append, globLoop_literal_cons f x c _ s h1 h2 h3 h4]
        simp only [List.isPrefixOf]
        have hrest : globRest (globLoop f) (p ++ ['*']) s = p.isPrefixOf s := by
          cases p with
          | nil =>
            cases f with
            | zero => simp at hfuel
            | succ g => simpa [List.isPrefixOf] using globRest_star g s
          | cons y q =>
            unfold globRest
            cases s with
            | nil =>
              simp only [List.all_cons, Bool.and_eq_true, bne_iff_ne, ne_eq] at hp
              have hy : (y == '*') = false := by simpa using hp.1.1.1.1
              simp [List.dropWhile, hy, List.isPrefixOf]
            | cons d t =>
              simp only [reduceCtorEq, if_false]
              exact ih hp (by simp) f (d :: t) (by simp at hfuel ⊢; omega)
        rw [hrest]
        cases x == c <;> simp

theorem scanMatch_literal (p key : String) (hlit : isLiteral p = true) :
    scanMatch (p ++ "*") key = p.data.isPrefixOf key.data := by
  unfold scanMatch
  by_cases hp : p.data = []
  · have : p = "" := String.ext hp
    subst this
    simp [List.isPrefixOf]
  · have hne : (p ++ "*" == "*") = false := by
      rw [beq_eq_false_iff_ne]
      intro h
      have h2 := congrArg String.data h
      rw [String.data_append] at h2
      have h3 : p.data.length + 1 = 1 := by
        have := congrArg List.length h2
        simpa using this
      exact hp (List.length_eq_zero.mp (by omega))
    rw [hne, Bool.false_or, String.data_append]
    exact globLoop_literal_star p.data hlit hp _ key.data (by simp; omega)

/-! ## Lemmas: the scan iteration of `DelByPrefix` -/

theorem tombAll_key (K : List String) (s : Slot) : (tombAll K s).key = s.key := by
  unfold tombAll
  split <;> rfl

theorem tombAll_nil (s : Slot) : tombAll [] s = s := by
  simp [tombAll]

theorem tombAll_append (K1 K2 : List String) (s : Slot) :
    tombAll K2 (tombAll K1 s) = tombAll (K1 ++ K2) s := by
  unfold tombAll
  by_cases h1 : K1.contains s.key = true <;> by_cases h2 : K2.contains s.key = true <;>
    simp_all [List.contains_iff_exists_mem_beq, List.elem_eq_mem]

theorem Del_slots (r : Redis) (k : String) (h : r.fault = none) :
    (r.Del k).2 = { r with slots := r.slots.map (tombAll [k]) } := by
  simp only [Redis.Del, h]
  congr 1
  apply List.map_congr_left
  intro s _
  unfold tombAll
  by_cases hk : s.key = k <;> simp [hk, List.elem_eq_mem]

theorem delPage_slots (page : List String) (r : Redis) (h : r.fault = none) :
    (delPage r page).1 = { r with slots := r.slots.map (tombAll page) } := by
  induction page generalizing r with
  | nil =>
    have hid : tombAll [] = id := funext tombAll_nil
    simp only [delPage, hid, List.map_id]
  | cons k ks ih =>
    simp only [delPage]
    rw [ih (r.Del k).2 (by rw [Del_slots r k h]; exact h), Del_slots r k h]
    simp only [List.map_map]
    congr 1
    apply List.map_congr_left
    intro s _
    simp only [Function.comp]
    rw [tombAll_append]
    rfl

/-- Emptying cells whose keys are exactly the live keys that pass the test leaves the
live entries that fail it. -/
theorem entries_tombAll (m : String → Bool) (K : List String) (slots : List Slot)
    (hK : ∀ k ∈ K, m k = true)
    (hcov : ∀ s ∈ slots, s.val.isSome = true → m s.key = true → s.key ∈ K) :
    (slots.map (tombAll K)).filterMap (fun s => s.val.map (fun v => (s.key, v)))
      = (slots.filterMap (fun s => s.val.map (fun v => (s.key, v)))).filter
          (fun e => !m e.1) := by
  induction slots with
  | nil => rfl
  | cons a as ih =>
    have ih2 := ih (fun s hs => hcov s (List.mem_cons_of_mem _ hs))
    have ha := hcov a (List.mem_cons_self _ _)
    cases hv : a.val with
    | none =>
      have h1 : (tombAll K a).val = none := by
        unfold tombAll; split <;> simp [hv]
      simp only [List.map_cons, List.filterMap_cons, h1, hv, Option.map_none']
      exact ih2
    | some v =>
      by_cases hm : m a.key = true
      · have hin : a.key ∈ K := ha (by simp [hv]) hm
        have h1 : (tombAll K a).val = none := by
          unfold tombAll
          simp [List.elem_eq_mem, hin]
        simp only [List.map_cons, List.filterMap_cons, h1, hv, Option.map_none',
          Option.map_some', List.filter_cons, hm, Bool.not_true, Bool.false_eq_true, if_false]
        exact ih2
      · have hnot : a.key ∉ K := fun hin => hm (hK _ hin)
        have h1 : tombAll K a = a := by
          unfold tombAll
          simp [List.elem_eq_mem, hnot]
        have hm2 : m a.key = false := by simpa using hm
        simp only [List.map_cons, List.filterMap_cons, h1, hv, Option.map_some',
          List.filter_cons, hm2, Bool.not_false, if_true]
        rw [ih2]

/-- One `Scan` call on a server that differs from `slots0` by the deleted keys `K`. -/
theorem scan_page (pattern : String) (slots0 : List Slot) (d : Nat) (K : List String)
    (c : Nat) :
    ∃ page : List String,
      (Redis.Scan { slots := slots0.map (tombAll K), defaultCount := d, fault := none }
          c pattern 0)
        = .ok (page, if c + max 1 d < slots0.length then c + max 1 d else 0) ∧
      (∀ k ∈ page, (pattern == "" || scanMatch pattern k) = true) ∧
      (∀ s ∈ (slots0.drop c).take (max 1 d), s.val.isSome = true →
        (pattern == "" || scanMatch pattern s.key) = true → s.key ∈ K ++ page) := by
  refine ⟨((((slots0.map (tombAll K)).drop c).take (max 1 d)).filter (fun s =>
      s.val.isSome && (pattern == "" || scanMatch pattern s.key))).map (fun s => s.key),
    ?_, ?_, ?_⟩
  · simp only [Redis.Scan, List.length_map, Nat.lt_irrefl, if_false]
  · intro k hk
    simp only [List.mem_map, List.mem_filter, Bool.and_eq_true] at hk
    obtain ⟨s, ⟨_, _, hm⟩, rfl⟩ := hk
    exact hm
  · intro s hs hlive hm
    by_cases hin : s.key ∈ K
    · exact List.mem_append_left _ hin
    · apply List.mem_append_right
      have h1 : tombAll K s = s := by
        unfold tombAll
        simp [List.elem_eq_mem, hin]
      simp only [List.mem_map, List.mem_filter, Bool.and_eq_true]
      refine ⟨s, ⟨?_, hlive, hm⟩, rfl⟩
      rw [← List.map_drop, ← List.map_take]
      exact List.mem_map.mpr ⟨s, hs, h1⟩

theorem scanLoop_inv (pattern : String) (slots0 : List Slot) (d : Nat) (fuel : Nat) :
    ∀ (K : List String) (cursor found : Nat),
      (∀ k ∈ K, (pattern == "" || scanMatch pattern k) = true) →
      (∀ s ∈ slots0.take cursor, s.val.isSome = true →
        (pattern == "" || scanMatch pattern s.key) = true → s.key ∈ K) →
      (cursor = 0 → ∀ s ∈ slots0, s.val.isSome = true →
        (pattern == "" || scanMatch pattern s.key) = true → s.key ∈ K) →
      (cursor ≠ 0 → slots0.length < cursor + fuel) →
      ∃ K' : List String,
        (scanLoop pattern fuel
            { slots := slots0.map (tombAll K), defaultCount := d, fault := none }
            cursor found).1
          = { slots := slots0.map (tombAll K'), defaultCount := d, fault := none } ∧
        (∀ k ∈ K', (pattern == "" || scanMatch pattern k) = true) ∧
        (∀ s ∈ slots0, s.val.isSome = true →
          (pattern == "" || scanMatch pattern s.key) = true → s.key ∈ K') := by
  induction fuel with
  | zero =>
    intro K cursor found hK hcov hzero hfuel
    refine ⟨K, rfl, hK, ?_⟩
    by_cases hc : cursor = 0
    · exact hzero hc
    · have hlen := hfuel hc
      intro s hs
      apply hcov
      rw [List.take_of_length_le (by omega)]
      exact hs
  | succ f ih =>
    intro K cursor found hK hcov hzero hfuel
    by_cases hc : cursor = 0
    · refine ⟨K, ?_, hK, hzero hc⟩
      simp [scanLoop, hc]
    · obtain ⟨page, hscan, hpage, hwin⟩ := scan_page pattern slots0 d K cursor
      have hstep : scanLoop pattern (f + 1)
          { slots := slots0.map (tombAll K), defaultCount := d, fault := none } cursor found
          = scanLoop pattern f
              { slots := slots0.map (tombAll (K ++ page)), defaultCount := d, fault := none }
              (if cursor + max 1 d < slots0.length then cursor + max 1 d else 0)
              (found + (delPage
                { slots := slots0.map (tombAll K), defaultCount := d, fault := none }
                page).2) := by
        simp only [scanLoop, hc, if_false, hscan]
        rw [delPage_slots page _ rfl]
        simp only [List.map_map]
        congr 2
        apply List.map_congr_left
        intro s _
        simp only [Function.comp]
        rw [tombAll_append]
      rw [hstep]
      have hK2 : ∀ k ∈ K ++ page, (pattern == "" || scanMatch pattern k) = true := by
        intro k hk
        rcases List.mem_append.mp hk with h | h
        · exact hK k h
        · exact hpage k h
      have hcov2 : ∀ s ∈ slots0.take (cursor + max 1 d), s.val.isSome = true →
          (pattern == "" || scanMatch pattern s.key) = true → s.key ∈ K ++ page := by
        intro s hs hlive hm
        rw [List.take_add] at hs
        rcases List.mem_append.mp hs with h | h
        · exact List.mem_append_left _ (hcov s h hlive hm)
        · exact hwin s h hlive hm
      by_cases hnext : cursor + max 1 d < slots0.length
      · simp only [hnext, if_true]
        apply ih (K ++ page) _ _ hK2 hcov2
        · intro h0
          have : 1 ≤ max 1 d := le_max_left 1 d
          omega
        · intro _
          have : 1 ≤ max 1 d := le_max_left 1 d
          have := hfuel hc
          omega
      · simp only [hnext, if_false]
        have hall : ∀ s ∈ slots0, s.val.isSome = true →
            (pattern == "" || scanMatch pattern s.key) = true → s.key ∈ K ++ page := by
          intro s hs
          apply hcov2
          rw [List.take_of_length_le (by omega)]
          exact hs
        apply ih (K ++ page) 0 _ hK2
        · intro s hs
          simp at hs
        · intro _
          exact hall
        · intro h0
          exact absurd rfl h0

theorem DelByPrefix_entries (s : CacheSvcImpl) (prefixName : String)
    (hstore : s.redis.fault = none) :
    (s.DelByPrefix prefixName).1.redis.entries
      = s.redis.entries.filter (fun e => !scanMatch (prefixName ++ "*") e.1) ∧
    (s.DelByPrefix prefixName).1.config = s.config := by
  obtain ⟨config, ⟨slots0, d, fault⟩⟩ := s
  simp only at hstore
  subst hstore
  have hpat : (prefixName ++ "*" == "") = false := by
    rw [beq_eq_false_iff_ne]
    intro h
    have h2 := congrArg String.data h
    rw [String.data_append] at h2
    have := congrArg List.length h2
    simp at this
  obtain ⟨page, hscan, hpage, hwin⟩ := scan_page (prefixName ++ "*") slots0 d [] 0
  have hid : tombAll [] = id := funext tombAll_nil
  simp only [hid, List.map_id, Nat.zero_add, List.nil_append, List.drop_zero] at hscan hwin
  have hdel := delPage_slots page { slots := slots0, defaultCount := d, fault := none } rfl
  obtain ⟨K', hfin, hK', hcov'⟩ := scanLoop_inv (prefixName ++ "*") slots0 d slots0.length
    page (if max 1 d < slots0.length then max 1 d else 0)
    (delPage { slots := slots0, defaultCount := d, fault := none } page).2
    hpage
    (by
      intro s hs hlive hm
      by_cases hn : max 1 d < slots0.length
      · simp only [hn, if_true] at hs
        exact hwin s hs hlive hm
      · simp only [hn, if_false, List.take_zero] at hs
        simp at hs)
    (by
      intro h0 s hs hlive hm
      by_cases hn : max 1 d < slots0.length
      · simp only [hn, if_true] at h0
        have : 1 ≤ max 1 d := le_max_left 1 d
        omega
      · apply hwin s _ hlive hm
        rw [List.take_of_length_le (by omega)]
        exact hs)
    (by
      intro h0
      by_cases hn : max 1 d < slots0.length
      · simp only [hn, if_true]
        have : 1 ≤ max 1 d := le_max_left 1 d
        omega
      · simp only [hn, if_false] at h0
        exact absurd rfl h0)
  simp only [CacheSvcImpl.DelByPrefix, hscan, hdel, hfin, Redis.entries, and_true]
  have := entries_tombAll (fun k => (prefixName ++ "*" == "" || scanMatch (prefixName ++ "*") k))
    K' slots0 hK' hcov'
  simp only [hpat, Bool.false_or] at this
  exact this

theorem unauthorized_panic :
    PanicIfError (some (CustomError "unauthorized" 401))
      = .error (.appError
          { Message := "unauthorized|unauthorized", StatusCode := 401, ErrorCode := 0 }) := by
  decide

/-- The gate's own test: a header that is empty or does not contain `Bearer ` is
answered with the `AppError` of status 401, before the decoder or the handler runs. -/
theorem CheckIsAuthenticated_rejects (DecodeToken : String → String × Option GoError)
    (handler : AuthPayload → Except Panic Unit) (r : Request)
    (h : authHeader r = "" ∨ Contains (authHeader r) "Bearer " = false) :
    CheckIsAuthenticated DecodeToken handler r
      = { decoded := [], handled := [],
          result := .error (.appError
            { Message := "unauthorized|unauthorized", StatusCode := 401, ErrorCode := 0 }) } := by
  have hg : (authHeader r == "" || !Contains (authHeader r) "Bearer ") = true := by
    rcases h with h | h <;> simp [h]
  simp only [CheckIsAuthenticated, hg, if_true, unauthorized_panic]

theorem CheckIsAuthenticated_passes (DecodeToken : String → String × Option GoError)
    (handler : AuthPayload → Except Panic Unit) (r : Request)
    (h1 : authHeader r ≠ "") (h2 : Contains (authHeader r) "Bearer " = true) :
    CheckIsAuthenticated DecodeToken handler r
      = decodeAndHandle DecodeToken handler (authHeader r) := by
  have hg : (authHeader r == "" || !Contains (authHeader r) "Bearer ") = false := by
    simp [h1, h2]
  simp only [CheckIsAuthenticated, hg, Bool.false_eq_true, if_false]

theorem decodeAndHandle_decoded (DecodeToken : String → String × Option GoError)
    (handler : AuthPayload → Except Panic Unit) (header token : String)
    (h : (Split header " ")[1]? = some token) :
    (decodeAndHandle DecodeToken handler header).decoded = [token] := by
  simp only [decodeAndHandle, h]
  split <;> rfl

/-- C8 at the failing input: with the header `Authorization: Basic Bearer abc` the gate
passes the token `Bearer` to the decoder, whatever the decoder is, and when the decoder
accepts it the downstream handler is invoked; with the header `Authorization: Bearer `
(no token) the gate passes the empty token to the decoder. -/
theorem CheckIsAuthenticated_accepts_non_bearer_scheme :
    (∀ (DecodeToken : String → String × Option GoError)
        (handler : AuthPayload → Except Panic Unit),
      (CheckIsAuthenticated DecodeToken handler
        { Header := [("Authorization", "Basic Bearer abc")], Query := [] }).decoded
        = ["Bearer"]) ∧
    (∀ handler : AuthPayload → Except Panic Unit,
      (CheckIsAuthenticated (fun _ => ("u1", none)) handler
        { Header := [("Authorization", "Basic Bearer abc")], Query := [] }).handled
        = [{ UserID := "u1" }]) ∧
    (∀ (DecodeToken : String → String × Option GoError)
        (handler : AuthPayload → Except Panic Unit),
      (CheckIsAuthenticated DecodeToken handler
        { Header := [("Authorization", "Bearer ")], Query := [] }).decoded = [""]) := by
  refine ⟨?_, ?_, ?_⟩
  · intro DecodeToken handler
    rw [CheckIsAuthenticated_passes _ _ _ (by decide) (by decide)]
    exact decodeAndHandle_decoded _ _ _ _ (by decide)
  · intro handler
    rw [CheckIsAuthenticated_passes _ _ _ (by decide) (by decide)]
    rfl
  · intro DecodeToken handler
    rw [CheckIsAuthenticated_passes _ _ _ (by decide) (by decide)]
    exact decodeAndHandle_decoded _ _ _ _ (by decide)

/-- C2.  `Set` with a nil value, or with a slice of length zero, returns a nil error and
leaves the facade, and so the store, exactly as it was; a later `Get` of any key gives
what it gave before, so a key that was absent (`redis.Nil`) still is. -/
theorem Set_nil_or_empty_is_noop {T : Type} (ty : GoType T) (s : CacheSvcImpl)
    (k : String) (data : T) (duration : List Duration)
    (h : ty.isNil data = true ∨ (ty.isSlice data = true ∧ ty.len data = 0)) :
    (CacheSvcImpl.Set ty s k data duration).1 = none ∧
      (CacheSvcImpl.Set ty s k data duration).2 = s ∧
      (∀ (k2 : String) (out : T),
        CacheSvcImpl.Get ty (CacheSvcImpl.Set ty s k data duration).2 k2 out
          = CacheSvcImpl.Get ty s k2 out) ∧
      (s.redis.Get k = .error .redisNil →
        (CacheSvcImpl.Set ty s k data duration).2.redis.Get k = .error .redisNil) := by
  rw [Set_noop ty s k data duration h]
  exact ⟨rfl, rfl, fun _ _ => rfl, fun h2 => h2⟩

/-- C2 at a concrete input: the empty `[]bool` slice on the empty cache. -/
theorem Set_nil_or_empty_is_noop_witness :
    (CacheSvcImpl.Set boolSlice emptyCache "k" (some []) []).1 = none ∧
      (CacheSvcImpl.Set boolSlice emptyCache "k" (some []) []).2 = emptyCache ∧
      (∀ (k2 : String) (out : Option (List Bool)),
        CacheSvcImpl.Get boolSlice (CacheSvcImpl.Set boolSlice emptyCache "k" (some []) []).2
          k2 out = CacheSvcImpl.Get boolSlice emptyCache k2 out) ∧
      (emptyCache.redis.Get "k" = .error .redisNil →
        (CacheSvcImpl.Set boolSlice emptyCache "k" (some []) []).2.redis.Get "k"
          = .error .redisNil) :=
  Set_nil_or_empty_is_noop boolSlice emptyCache "k" (some []) [] (Or.inr ⟨rfl, rfl⟩)

/-- C1, as stated, fails: the value `{Ok: true, hidden: true}` is neither nil nor a
slice and every store operation succeeds, yet `Get` after `Set` yields
`{Ok: true, hidden: false}`. -/
theorem Set_then_Get_counterexample :
    flagsType.isNil { Ok := true, hidden := true } = false ∧
      flagsType.isSlice { Ok := true, hidden := true } = false ∧
      (CacheSvcImpl.Set flagsType emptyCache "k" { Ok := true, hidden := true } []).1 = none ∧
      CacheSvcImpl.Get flagsType
        (CacheSvcImpl.Set flagsType emptyCache "k" { Ok := true, hidden := true } []).2
        "k" flagsType.zero = (none, { Ok := true, hidden := false }) ∧
      ({ Ok := true, hidden := false } : Flags) ≠ { Ok := true, hidden := true } := by
  decide

/-- C1, amended.  For a value that is not nil and not an empty slice, whose JSON encoding
succeeds with `bytes` and decodes into `out` as the value itself, on a healthy store:
`Set` returns a nil error and stores exactly `bytes` under the key, and `Get` of the key
then returns a nil error and leaves the output equal to the value. -/
theorem Set_then_Get {T : Type} (ty : GoType T) (s : CacheSvcImpl) (k : String)
    (v out : T) (duration : List Duration) (bytes : String)
    (hstore : s.redis.fault = none) (hnil : ty.isNil v = false)
    (hslice : ¬ (ty.isSlice v = true ∧ ty.len v = 0))
    (henc : ty.Marshal v = .ok bytes) (hdec : ty.Unmarshal bytes out = (none, v)) :
    (CacheSvcImpl.Set ty s k v duration).1 = none ∧
      (CacheSvcImpl.Set ty s k v duration).2.redis.Get k = .ok bytes ∧
      CacheSvcImpl.Get ty (CacheSvcImpl.Set ty s k v duration).2 k out = (none, v) := by
  obtain ⟨h1, h2⟩ := Set_writes ty s k v duration bytes hstore hnil hslice henc
  exact ⟨h1, h2, Set_then_Get_aux ty s k v out duration bytes hstore hnil hslice henc hdec⟩

/-- C1, amended, at a concrete input: the slice `[true, false]` on the empty cache. -/
theorem Set_then_Get_witness :
    (CacheSvcImpl.Set boolSlice emptyCache "k" (some [true, false]) []).1 = none ∧
      (CacheSvcImpl.Set boolSlice emptyCache "k" (some [true, false]) []).2.redis.Get "k"
        = .ok "[true,false]" ∧
      CacheSvcImpl.Get boolSlice
        (CacheSvcImpl.Set boolSlice emptyCache "k" (some [true, false]) []).2 "k" none
        = (none, some [true, false]) :=
  Set_then_Get boolSlice emptyCache "k" (some [true, false]) none [] "[true,false]"
    (by decide) (by decide) (by decide) rfl (by decide)

/-- C3, as stated, fails: on the empty cache a compute function that returns the empty
`[]bool` slice is invoked once and its value is returned with a nil error, but nothing
is stored, and a plain `Get` of the key afterwards still reports `redis.Nil`. -/
theorem GetOrSetData_cold_counterexample :
    emptyCache.redis.Get "k" = .error .redisNil ∧
      (GetOrSetData (CacheSvcImpl.toCacheSvc boolSlice) boolSlice.zero emptyCache "k"
        (fun _ => (some [], none)) []).computeCalls = 1 ∧
      (GetOrSetData (CacheSvcImpl.toCacheSvc boolSlice) boolSlice.zero emptyCache "k"
        (fun _ => (some [], none)) []).data = some [] ∧
      (GetOrSetData (CacheSvcImpl.toCacheSvc boolSlice) boolSlice.zero emptyCache "k"
        (fun _ => (some [], none)) []).err = none ∧
      CacheSvcImpl.Get boolSlice
        (GetOrSetData (CacheSvcImpl.toCacheSvc boolSlice) boolSlice.zero emptyCache "k"
          (fun _ => (some [], none)) []).cache "k" none = (some .redisNil, none) := by
  decide

/-- C3, amended.  On a healthy store where the key is absent, with a compute function
that returns `v` and a nil error, `GetOrSetData` invokes the function exactly once and
returns `v`.  When `v`, as `Set` receives it, is the nil interface or a slice of length
zero, the error is nil and nothing is stored, so the key is still absent.  Otherwise, when the JSON encoding of `v` succeeds with
`bytes`, the error is nil, `bytes` is stored under the key, and a plain `Get` into any
output that `bytes` decodes into as `v` returns a nil error and yields `v`. -/
theorem GetOrSetData_cold {T : Type} (ty : GoType T) (s : CacheSvcImpl) (k : String)
    (function : Unit → T × Option GoError) (duration : List Duration) (v : T)
    (hstore : s.redis.fault = none) (hcold : s.redis.Get k = .error .redisNil)
    (hfn : function () = (v, none)) :
    (GetOrSetData (CacheSvcImpl.toCacheSvc ty) ty.zero s k function duration).computeCalls = 1 ∧
      (GetOrSetData (CacheSvcImpl.toCacheSvc ty) ty.zero s k function duration).data = v ∧
      ((ty.isNil v = true ∨ (ty.isSlice v = true ∧ ty.len v = 0)) →
        (GetOrSetData (CacheSvcImpl.toCacheSvc ty) ty.zero s k function duration).err = none ∧
        (GetOrSetData (CacheSvcImpl.toCacheSvc ty) ty.zero s k function duration).cache = s ∧
        (GetOrSetData (CacheSvcImpl.toCacheSvc ty) ty.zero s k function duration).cache.redis.Get k
          = .error .redisNil) ∧
      (∀ bytes : String, ty.isNil v = false → ¬ (ty.isSlice v = true ∧ ty.len v = 0) →
        ty.Marshal v = .ok bytes →
        (GetOrSetData (CacheSvcImpl.toCacheSvc ty) ty.zero s k function duration).err = none ∧
        (GetOrSetData (CacheSvcImpl.toCacheSvc ty) ty.zero s k function duration).cache.redis.Get k
          = .ok bytes ∧
        ∀ out : T, ty.Unmarshal bytes out = (none, v) →
          CacheSvcImpl.Get ty
            (GetOrSetData (CacheSvcImpl.toCacheSvc ty) ty.zero s k function duration).cache k out
            = (none, v)) := by
  have hrun : GetOrSetData (CacheSvcImpl.toCacheSvc ty) ty.zero s k function duration
      = { data := v, err := (CacheSvcImpl.Set ty s k v duration).1,
          cache := (CacheSvcImpl.Set ty s k v duration).2, computeCalls := 1 } := by
    simp [GetOrSetData, CacheSvcImpl.toCacheSvc, CacheSvcImpl.Get, hcold, isNotFound, hfn]
  rw [hrun]
  refine ⟨rfl, rfl, ?_, ?_⟩
  · intro h
    rw [Set_noop ty s k v duration h]
    exact ⟨rfl, rfl, hcold⟩
  · intro bytes hnil hslice henc
    obtain ⟨h1, h2⟩ := Set_writes ty s k v duration bytes hstore hnil hslice henc
    refine ⟨h1, h2, ?_⟩
    intro out hdec
    exact (Set_then_Get_aux ty s k v out duration bytes hstore hnil hslice henc hdec)

/-- C3, amended, at a concrete input: computing `[true]` for an absent key of the empty
cache. -/
theorem GetOrSetData_cold_witness :
    (GetOrSetData (CacheSvcImpl.toCacheSvc boolSlice) boolSlice.zero emptyCache "k"
        (fun _ => (some [true], none)) []).computeCalls = 1 ∧
      (GetOrSetData (CacheSvcImpl.toCacheSvc boolSlice) boolSlice.zero emptyCache "k"
        (fun _ => (some [true], none)) []).err = none ∧
      CacheSvcImpl.Get boolSlice
        (GetOrSetData (CacheSvcImpl.toCacheSvc boolSlice) boolSlice.zero emptyCache "k"
          (fun _ => (some [true], none)) []).cache "k" none = (none, some [true]) :=
  have h := GetOrSetData_cold boolSlice emptyCache "k" (fun _ => (some [true], none)) []
    (some [true]) (by decide) (by decide) rfl
  have h2 := h.2.2.2 "[true]" (by decide) (by decide) rfl
  ⟨h.1, h2.1, h2.2.2 none (by decide)⟩

/-- C4.  `GetOrSetData` over any cache service: when the fetch succeeds it returns the
fetched value with a nil error, and when the fetch fails with an error that is not a
cache miss (`redis.Nil`, or the text `Entry not found`) it returns that same error; in
both cases the compute function is not invoked and the cache is in the state the fetch
left it in, no `Set` being made.  The compute function is invoked only when the fetch
reports a cache miss.  Over `CacheSvcImpl` the store is left as it was, also when the
error is that of the decoder. -/
theorem GetOrSetData_no_compute {σ T : Type} (c : CacheSvc σ T) (zero : T) (s : σ)
    (key : String) (function : Unit → T × Option GoError) (duration : List Duration)
    (ty : GoType T) (impl : CacheSvcImpl) :
    ((c.Get s key zero).1.1 = none →
        GetOrSetData c zero s key function duration
          = { data := (c.Get s key zero).1.2, err := none, cache := (c.Get s key zero).2,
              computeCalls := 0 }) ∧
      (∀ err : GoError, (c.Get s key zero).1.1 = some err → isNotFound err = false →
        GetOrSetData c zero s key function duration
          = { data := (c.Get s key zero).1.2, err := some err, cache := (c.Get s key zero).2,
              computeCalls := 0 }) ∧
      ((GetOrSetData c zero s key function duration).computeCalls ≠ 0 →
        ∃ err : GoError, (c.Get s key zero).1.1 = some err ∧ isNotFound err = true) ∧
      (∀ (bytes : String) (err : GoError) (out : T),
        impl.redis.Get key = .ok bytes → ty.Unmarshal bytes ty.zero = (some err, out) →
        isNotFound err = false →
        GetOrSetData (CacheSvcImpl.toCacheSvc ty) ty.zero impl key function duration
          = { data := out, err := some err, cache := impl, computeCalls := 0 }) ∧
      (∀ err : GoError, impl.redis.Get key = .error err → isNotFound err = false →
        GetOrSetData (CacheSvcImpl.toCacheSvc ty) ty.zero impl key function duration
          = { data := ty.zero, err := some err, cache := impl, computeCalls := 0 }) := by
  refine ⟨?_, ?_, ?_, ?_, ?_⟩
  · intro h
    simp [GetOrSetData, h]
  · intro err h hnf
    simp [GetOrSetData, h, hnf]
  · intro h
    cases hg : (c.Get s key zero).1.1 with
    | none => simp [GetOrSetData, hg] at h
    | some err =>
      cases hnf : isNotFound err with
      | true => exact ⟨err, rfl, hnf⟩
      | false => simp [GetOrSetData, hg, hnf] at h
  · intro bytes err out hget hdec hnf
    simp [GetOrSetData, CacheSvcImpl.toCacheSvc, CacheSvcImpl.Get, hget, hdec, hnf]
  · intro err hget hnf
    simp [GetOrSetData, CacheSvcImpl.toCacheSvc, CacheSvcImpl.Get, hget, hnf]

/-- C4 at a concrete input: the key of `corruptCache` holds bytes the decoder rejects;
the decoder's error is returned, the compute function is not invoked and the cache is
unchanged. -/
theorem GetOrSetData_no_compute_witness :
    GetOrSetData (CacheSvcImpl.toCacheSvc boolSlice) boolSlice.zero corruptCache "k"
        (fun _ => (some [true], none)) []
      = { data := none, err := some decodeError, cache := corruptCache, computeCalls := 0 } :=
  (GetOrSetData_no_compute (CacheSvcImpl.toCacheSvc boolSlice) boolSlice.zero corruptCache "k"
    (fun _ => (some [true], none)) [] boolSlice corruptCache).2.2.2.1
    "oops" decodeError none (by decide) (by decide) (by decide)

/-! ## Cache keys: claims C5 and C6 -/

/-- C5, as stated, fails: for the two arguments `{A: ""}` and `{B: "1"}`, whose fields
are exported strings, the code gives `order|B->1`, while the renderings joined by bars
behind `order|` give `order||B->1`. -/
theorem BuildCacheKey_counterexample :
    BuildCacheKey "order" "" "" [[exported "A" ""], [exported "B" "1"]] = .ok "order|B->1" ∧
      specHead "order" "" "" ++ "|"
          ++ String.intercalate "|"
            ([[exported "A" ""], [exported "B" "1"]].map specRender)
        = "order||B->1" := by
  decide

/-- C5, amended.  For argument structs whose fields are all exported strings and in
which no field whose value ends in a bar is followed, in the same argument, by a
non-empty field, `BuildCacheKey` returns the head, a bar, and the renderings of the
arguments joined by bars once the leading arguments whose rendering is empty are
dropped; the head is the base, then `:identifier` and `:funcName` for those that are
non-empty, and a rendering is the argument's non-empty fields as `FieldName->value`, in
order, joined by commas.  With no arguments: `BuildCacheKey("order", "", "")` is
`order|` and `BuildCacheKey("order", "42", "list")` is `order:42:list|`. -/
theorem BuildCacheKey_eq (key identifier funcName : String) (args : List ArgStruct)
    (hexp : ∀ arg ∈ args, ∀ f ∈ arg, f.PkgPath = "")
    (hsafe : ∀ arg ∈ args, commaSafe arg = true) :
    BuildCacheKey key identifier funcName args
        = .ok (specHead key identifier funcName ++ "|"
          ++ String.intercalate "|" ((args.map specRender).dropWhile (fun r => r == ""))) ∧
      BuildCacheKey key identifier funcName []
        = .ok (specHead key identifier funcName ++ "|") ∧
      BuildCacheKey "order" "" "" [] = .ok "order|" ∧
      BuildCacheKey "order" "42" "list" [] = .ok "order:42:list|" := by
  refine ⟨?_, ?_, by decide, by decide⟩
  · unfold BuildCacheKey
    simp only [head_eq, appendArgs_exported args "" hexp, args_fold args hsafe]
  · unfold BuildCacheKey
    simp only [head_eq, appendArgs, String.append_empty]

/-- C5, amended, at a concrete input with two arguments, an empty field and a last field
whose value ends in a bar. -/
theorem BuildCacheKey_eq_witness :
    BuildCacheKey "order" "42" "list"
        [[exported "Status" "paid", exported "Note" "", exported "Tag" "a|"],
         [exported "Page" "2"]]
        = .ok (specHead "order" "42" "list" ++ "|"
          ++ String.intercalate "|"
            (([[exported "Status" "paid", exported "Note" "", exported "Tag" "a|"],
               [exported "Page" "2"]].map specRender).dropWhile (fun r => r == ""))) ∧
      BuildCacheKey "order" "42" "list" [] = .ok (specHead "order" "42" "list" ++ "|") ∧
      BuildCacheKey "order" "" "" [] = .ok "order|" ∧
      BuildCacheKey "order" "42" "list" [] = .ok "order:42:list|" :=
  BuildCacheKey_eq "order" "42" "list"
    [[exported "Status" "paid", exported "Note" "", exported "Tag" "a|"],
     [exported "Page" "2"]]
    (by decide) (by decide)

/-- C6, as stated, fails: `BuildPrefixKey("a", "", "b")` is `a::b`, while the non-empty
segments joined by colons are `a:b`. -/
theorem BuildPrefixKey_counterexample :
    BuildPrefixKey ["a", "", "b"] = "a::b" ∧
      String.intercalate ":" (["a", "", "b"].filter (fun k => k != "")) = "a:b" := by
  decide

/-- C6, amended.  `BuildPrefixKey` is the segments joined by colons once the leading
empty segments are dropped; an empty segment after the first non-empty one is kept.
`BuildPrefixKey()` is the empty string and `BuildPrefixKey("a", "b", "c")` is `a:b:c`. -/
theorem BuildPrefixKey_eq (keys : List String) :
    BuildPrefixKey keys = String.intercalate ":" (keys.dropWhile (fun k => k == "")) ∧
      BuildPrefixKey [] = "" ∧
      BuildPrefixKey ["a", "b", "c"] = "a:b:c" :=
  ⟨BuildPrefixKey_dropWhile keys, by decide, by decide⟩

/-! ## Prefix deletion: claim C7 -/

/-- C7, as stated, fails: with the prefix `a?` the scan pattern is `a?*`, in which the
question mark stands for any character; the key `ab`, which does not start with `a?`,
is deleted. -/
theorem DelByPrefix_counterexample :
    HasPrefix "ab" "a?" = false ∧
      ({ config := { CacheDuration := 60 },
         redis := { slots := [{ key := "ab", val := some ("1", 60) },
                              { key := "book", val := some ("2", 60) }],
                    defaultCount := 10, fault := none } } : CacheSvcImpl).redis.entries
        = [("ab", "1", 60), ("book", "2", 60)] ∧
      (CacheSvcImpl.DelByPrefix
        { config := { CacheDuration := 60 },
          redis := { slots := [{ key := "ab", val := some ("1", 60) },
                               { key := "book", val := some ("2", 60) }],
                     defaultCount := 10, fault := none } } "a?").1.redis.entries
        = [("book", "2", 60)] := by
  decide

/-- C7, amended.  For a prefix without the glob characters `*`, `?`, `[` and backslash,
on a healthy store, `DelByPrefix` leaves exactly the entries whose key does not start
with the prefix, each with its value and expiration unchanged and in the same order,
whatever the size of the table and of the scan pages. -/
theorem DelByPrefix_removes_prefix (s : CacheSvcImpl) (prefixName : String)
    (hstore : s.redis.fault = none) (hlit : isLiteral prefixName = true) :
    (s.DelByPrefix prefixName).1.redis.entries
        = s.redis.entries.filter (fun e => !HasPrefix e.1 prefixName) ∧
      (s.DelByPrefix prefixName).1.config = s.config := by
  obtain ⟨h1, h2⟩ := DelByPrefix_entries s prefixName hstore
  refine ⟨?_, h2⟩
  rw [h1]
  apply List.filter_congr
  intro e _
  rw [scanMatch_literal prefixName e.1 hlit]
  rfl

/-- C7, amended, at a concrete input: three keys scanned one cell a page. -/
theorem DelByPrefix_removes_prefix_witness :
    (threeKeys.DelByPrefix "order").1.redis.entries
        = threeKeys.redis.entries.filter (fun e => !HasPrefix e.1 "order") ∧
      (threeKeys.DelByPrefix "order").1.config = threeKeys.config :=
  DelByPrefix_removes_prefix threeKeys "order" (by decide) (by decide)

/-! ## Error signalling: claims C9 and C10 -/

/-- C9, as stated, fails: a message containing `<->` loses the status code
(`CustomError("a<->b", 400)` panics with status 0), and wrapping an error that itself
carries a status keeps the inner one (status 404 for the requested 500). -/
theorem status_code_counterexample :
    PanicIfError (some (CustomError "a<->b" 400))
        = .error (.appError { Message := "a", StatusCode := 0, ErrorCode := 0 }) ∧
      PanicIfAppError (some (CustomError "not found" 404)) "failed" 500
        = .error (.appError
            { Message := "not found|not found", StatusCode := 404, ErrorCode := 0 }) := by
  decide

/-- C9, amended.  For a message without `<->` and a status code in the range of `int`:
`PanicIfError(CustomError(message, statusCode))` and `PanicAppError(message,
statusCode)` panic with an `AppError` whose status code is `statusCode`, and so does
`PanicIfAppError(err, message, statusCode)` for every non-nil `err` whose text has no
`<->`. -/
theorem status_code_roundtrip (message : String) (statusCode : Int)
    (hm : Contains message "<->" = false)
    (hlo : -(2 ^ 63) ≤ statusCode) (hhi : statusCode < 2 ^ 63) :
    PanicIfError (some (CustomError message statusCode))
        = .error (.appError
            { Message := message ++ "|" ++ message, StatusCode := statusCode,
              ErrorCode := 0 }) ∧
      PanicAppError message statusCode
        = .error (.appError
            { Message := message ++ "|" ++ message, StatusCode := statusCode,
              ErrorCode := 0 }) ∧
      ∀ err : GoError, Contains err.Error "<->" = false →
        PanicIfAppError (some err) message statusCode
          = .error (.appError
              { Message := err.Error ++ "|" ++ message, StatusCode := statusCode,
                ErrorCode := 0 }) :=
  ⟨CustomError_panic message statusCode hm hlo hhi,
   CustomError_panic message statusCode hm hlo hhi,
   fun err he => PanicIfAppError_panic err message statusCode he hm hlo hhi⟩

/-- C9, amended, at a concrete input: the message `bad request` with status 400. -/
theorem status_code_roundtrip_witness :
    PanicIfError (some (CustomError "bad request" 400))
        = .error (.appError
            { Message := "bad request" ++ "|" ++ "bad request", StatusCode := 400,
              ErrorCode := 0 }) ∧
      PanicAppError "bad request" 400
        = .error (.appError
            { Message := "bad request" ++ "|" ++ "bad request", StatusCode := 400,
              ErrorCode := 0 }) ∧
      ∀ err : GoError, Contains err.Error "<->" = false →
        PanicIfAppError (some err) "bad request" 400
          = .error (.appError
              { Message := err.Error ++ "|" ++ "bad request", StatusCode := 400,
                ErrorCode := 0 }) :=
  status_code_roundtrip "bad request" 400 (by decide) (by decide) (by decide)

/-- C10 at the failing input: for the query `limit=-1` the parse succeeds, so the error
handed to `CustomErrorWithTrace` is nil and the call ends in a nil dereference of the
runtime, not in an `AppError` of status 400.  A value that is not a number does give
status 400, and a missing value gives the default. -/
theorem ValidateQueryParamInt_negative (quote : String → String) :
    ValidateQueryParamInt quote { Header := [], Query := [("limit", "-1")] } "limit" []
        = .error (.runtimeError "invalid memory address or nil pointer dereference") ∧
      ValidateQueryParamInt (fun s => "\"" ++ s ++ "\"")
          { Header := [], Query := [("limit", "abc")] } "limit" []
        = .error (.appError
            { Message := "strconv.Atoi: parsing \"abc\": invalid syntax|invalid query param limit",
              StatusCode := 400, ErrorCode := 0 }) ∧
      ValidateQueryParamInt quote { Header := [], Query := [("limit", "12")] } "limit" []
        = .ok 12 ∧
      ValidateQueryParamInt quote { Header := [], Query := [] } "limit" [30] = .ok 30 := by
  refine ⟨rfl, by decide, rfl, rfl⟩

/-! ## Further properties -/

/-- The test the auth gate makes: when the header it reads is empty or does not contain
`Bearer `, the request ends in the `AppError` of status 401 and neither the token
decoder nor the downstream handler is invoked. -/
theorem CheckIsAuthenticated_unauthorized
    (DecodeToken : String → String × Option GoError)
    (handler : AuthPayload → Except Panic Unit) (r : Request)
    (h : authHeader r = "" ∨ Contains (authHeader r) "Bearer " = false) :
    (CheckIsAuthenticated DecodeToken handler r).decoded = [] ∧
      (CheckIsAuthenticated DecodeToken handler r).handled = [] ∧
      (CheckIsAuthenticated DecodeToken handler r).result
        = .error (.appError
            { Message := "unauthorized|unauthorized", StatusCode := 401, ErrorCode := 0 }) := by
  rw [CheckIsAuthenticated_rejects DecodeToken handler r h]
  exact ⟨rfl, rfl, rfl⟩

/-- The auth gate on a request with a `Basic` header and on one with no header. -/
theorem CheckIsAuthenticated_unauthorized_witness :
    ((CheckIsAuthenticated (fun _ => ("u1", none)) (fun _ => .ok ())
        { Header := [("Authorization", "Basic dXNlcg==")], Query := [] }).decoded = [] ∧
      (CheckIsAuthenticated (fun _ => ("u1", none)) (fun _ => .ok ())
        { Header := [("Authorization", "Basic dXNlcg==")], Query := [] }).handled = [] ∧
      (CheckIsAuthenticated (fun _ => ("u1", none)) (fun _ => .ok ())
        { Header := [("Authorization", "Basic dXNlcg==")], Query := [] }).result
        = .error (.appError
            { Message := "unauthorized|unauthorized", StatusCode := 401, ErrorCode := 0 })) ∧
    (CheckIsAuthenticated (fun _ => ("u1", none)) (fun _ => .ok ())
        { Header := [], Query := [] }).decoded = [] :=
  ⟨CheckIsAuthenticated_unauthorized (fun _ => ("u1", none)) (fun _ => .ok ())
      { Header := [("Authorization", "Basic dXNlcg==")], Query := [] } (Or.inr (by decide)),
    (CheckIsAuthenticated_unauthorized (fun _ => ("u1", none)) (fun _ => .ok ())
      { Header := [], Query := [] } (Or.inl (by decide))).1⟩

/-- On a healthy store `DelByPrefix` leaves exactly the entries whose key does not match
the glob pattern made of the prefix and a star, whatever the prefix. -/
theorem DelByPrefix_removes_matches (s : CacheSvcImpl) (prefixName : String)
    (hstore : s.redis.fault = none) :
    (s.DelByPrefix prefixName).1.redis.entries
      = s.redis.entries.filter (fun e => !scanMatch (prefixName ++ "*") e.1) :=
  (DelByPrefix_entries s prefixName hstore).1

/-- Deleting by the prefix `order:?` on three keys, one cell a page. -/
theorem DelByPrefix_removes_matches_witness :
    (threeKeys.DelByPrefix "order:?").1.redis.entries
      = threeKeys.redis.entries.filter (fun e => !scanMatch ("order:?" ++ "*") e.1) :=
  DelByPrefix_removes_matches threeKeys "order:?" (by decide)

/-- An argument with an unexported field makes `BuildCacheKey` panic in `reflect`, whatever
the key, the identifier and the function name. -/
theorem BuildCacheKey_unexported_panics (key identifier funcName : String) :
    BuildCacheKey key identifier funcName
        [[{ Name := "a", PkgPath := "main", Value := "x" }]]
      = .error (.text
          "reflect.Value.Interface: cannot return value obtained from unexported field or method") :=
  rfl

end GoModules
